import Mathlib

/-!
# Verification of the `just-bash` shell front end and execution engine

A shallow embedding of the simulated-shell interpreter (`BashEnv`, the
class at the bottom of `src/types.ts`, together with the `VirtualFs`
collaborator, the `echo` command and the registry `export` builtin) in
Lean 4, plus theorems settling the frozen claims about it.

Conventions of the embedding:

* JavaScript strings are Lean `String`s; character scans (the `while`
  loops with an index `i`) become fuel-indexed recursions over
  `List Char`, consuming the string left to right exactly as the index
  does.  The fuel is always instantiated with the length of the input,
  which suffices because every loop iteration advances the index by at
  least one.
* `Record<string, string>` objects (`env`, and the `Map`s used for
  functions and local scopes) become insertion-ordered association
  lists with unique keys: `envGet` is property lookup, `envSet` is
  assignment (in-place update when the key exists, append otherwise),
  `envDelete` is the `delete` operator.
* Thrown JavaScript exceptions become `Except JsErr`; every mutation of
  instance state performed before a `throw` is preserved, so each
  stateful operation returns its updated state alongside the
  `Except` value.
* `exec` re-enters itself (loop bodies, conditions, function bodies),
  so it takes an explicit fuel parameter; running out of fuel yields
  the distinguished `JsErr.fuel` value, which no theorem ever equates
  with a behaviour of the program.
-/

namespace JustBash

/-- `ExecResult` from `src/types.ts`: `{stdout, stderr, exitCode}`.
The exit code is an unconstrained JavaScript number; we use `Int`. -/
structure ExecResult where
  stdout : String
  stderr : String
  exitCode : Int
deriving Repr, DecidableEq

/-- The kinds of `Redirection` used by `BashEnv.executeCommand` and
`BashEnv.applyRedirections` (`redir.type` in the source). -/
inductive RedirKind where
  | rstdout
  | rstderr
  | rstdin
  | stderrToStdout
deriving Repr, DecidableEq

/-- A parsed redirection, as consumed by `executeCommand`:
`{type, target?, append?}`. -/
structure Redirection where
  kind : RedirKind
  target : Option String
  append : Bool
deriving Repr, DecidableEq

/-- A simple command as produced by the shell parser and consumed by
`executeCommand`: command word, arguments, a parallel list recording
which arguments were quoted, and redirections. -/
structure ParsedCommand where
  command : String
  args : List String
  quotedArgs : List Bool
  redirections : List Redirection
deriving Repr, DecidableEq

/-- One pipeline stage: `{parsed, operator, negationCount}` where
`operator` is the chain operator preceding the stage (`""`, `"&&"`,
`"||"` or `";"`; the empty marker means pipe-connected). -/
structure PipelineCommand where
  parsed : ParsedCommand
  operator : String
  negationCount : Nat
deriving Repr, DecidableEq

/-- A pipeline: the ordered stages of one parsed command line. -/
structure Pipeline where
  commands : List PipelineCommand
deriving Repr, DecidableEq

/-! ## Kernel-computable string primitives

The JavaScript string methods are modelled on `List Char`, so every
definition in this file evaluates by plain structural reduction. -/

/-- The whitespace class of JavaScript's `trim` and `\s`. -/
def jsWsChar (c : Char) : Bool :=
  c = ' ' ∨ c = '\t' ∨ c = '\n' ∨ c = '\r' ∨ c = '\x0b' ∨ c = '\x0c'

/-- `s.trim()`. -/
def strTrim (s : String) : String :=
  ⟨((s.data.dropWhile jsWsChar).reverse.dropWhile jsWsChar).reverse⟩

/-- `s.startsWith(p)`. -/
def strStartsWith (s p : String) : Bool :=
  p.data.isPrefixOf s.data

/-- `s.split(t)` for a single-character separator. -/
def splitCharGo (t : Char) : List Char → List Char → List String
  | [], cur => [⟨cur.reverse⟩]
  | c :: rest, cur =>
    if c = t then ⟨cur.reverse⟩ :: splitCharGo t rest []
    else splitCharGo t rest (c :: cur)

/-- `s.split(t)` (single-character separator, keeping empty pieces). -/
def splitChar (s : String) (t : Char) : List String :=
  splitCharGo t s.data []

/-- Splitting on a character class (used for `split(/\s+/)` after a
`filter` of the empty pieces). -/
def splitPredGo (p : Char → Bool) : List Char → List Char → List String
  | [], cur => [⟨cur.reverse⟩]
  | c :: rest, cur =>
    if p c then ⟨cur.reverse⟩ :: splitPredGo p rest []
    else splitPredGo p rest (c :: cur)

/-- Split on every character matching `p`, keeping empty pieces. -/
def strSplitPred (p : Char → Bool) (s : String) : List String :=
  splitPredGo p s.data []

/-- `Array.prototype.join(sep)`. -/
def joinSep (sep : String) : List String → String
  | [] => ""
  | [x] => x
  | x :: y :: xs => x ++ sep ++ joinSep sep (y :: xs)

/-- The scan of `s.replace(pattern, replacement)` with a `/g` literal
pattern: left-to-right, non-overlapping, replacements not rescanned. -/
def strReplaceGo (pat rep : List Char) : Nat → List Char → List Char
  | 0, cs => cs
  | fuel + 1, cs =>
    if pat.isPrefixOf cs then rep ++ strReplaceGo pat rep fuel (cs.drop pat.length)
    else
      match cs with
      | [] => []
      | c :: rest => c :: strReplaceGo pat rep fuel rest

/-- `s.replace(pat, rep)` replacing every occurrence of a literal
nonempty pattern. -/
def strReplace (s pat rep : String) : String :=
  if pat = "" then s else ⟨strReplaceGo pat.data rep.data (s.length + 1) s.data⟩

/-- Code-point comparison of character lists (strict order first
difference, shorter-first). -/
def charListLe : List Char → List Char → Bool
  | [], _ => true
  | _ :: _, [] => false
  | a :: as, b :: bs => if a = b then charListLe as bs else decide (a.toNat < b.toNat)

/-- Insertion into a sorted list of strings (code-point order). -/
def insertSorted (x : String) : List String → List String
  | [] => [x]
  | y :: rest => if charListLe x.data y.data then x :: y :: rest else y :: insertSorted x rest

/-- Sort a list of strings (code-point order). -/
def sortStrings (l : List String) : List String :=
  l.foldr insertSorted []

/-! ## Association-list model of JavaScript objects and Maps -/

/-- Property lookup `obj[k]`, `undefined` becoming `none`. -/
def envGet : List (String × String) → String → Option String
  | [], _ => none
  | (k', v) :: rest, k => if k' = k then some v else envGet rest k

/-- Property assignment `obj[k] = v`: overwrite in place, else append
(JavaScript objects keep insertion order). -/
def envSet : List (String × String) → String → String → List (String × String)
  | [], k, v => [(k, v)]
  | (k', v') :: rest, k, v =>
    if k' = k then (k, v) :: rest else (k', v') :: envSet rest k v

/-- The `delete obj[k]` operator. Keys are unique, so deleting the
first occurrence is deletion of the property. -/
def envDelete : List (String × String) → String → List (String × String)
  | [], _ => []
  | (k', v') :: rest, k =>
    if k' = k then rest else (k', v') :: envDelete rest k

/-- `k in obj`. -/
def envHas (env : List (String × String)) (k : String) : Bool :=
  (envGet env k).isSome

/-! ## The virtual filesystem (`VirtualFs` in `src/fs.ts`, part_004) -/

/-- A filesystem entry: `{type: 'file', content, mode}` or
`{type: 'directory', mode}`. -/
inductive FsEntry where
  | file (content : String) (mode : Nat)
  | dir (mode : Nat)
deriving Repr, DecidableEq

/-- The `VirtualFs.data` map: normalized absolute path to entry. -/
abbrev FsMap := List (String × FsEntry)

/-- Lookup in the `data` map. -/
def fsGet : FsMap → String → Option FsEntry
  | [], _ => none
  | (k', v) :: rest, k => if k' = k then some v else fsGet rest k

/-- `data.set`: overwrite in place, else append. -/
def fsSet : FsMap → String → FsEntry → FsMap
  | [], k, v => [(k, v)]
  | (k', v') :: rest, k, v =>
    if k' = k then (k, v) :: rest else (k', v') :: fsSet rest k v

/-- `VirtualFs.normalizePath`: ensure a leading slash, drop `.` and
empty segments, resolve `..` by popping, no trailing slash. -/
def normalizePath (path : String) : String :=
  if path = "" ∨ path = "/" then "/"
  else
    let parts := (splitChar path '/').filter (fun p => p ≠ "" ∧ p ≠ ".")
    let resolved := parts.foldl
      (fun (acc : List String) part =>
        if part = ".." then acc.dropLast else acc ++ [part]) []
    "/" ++ joinSep "/" resolved

/-- The proper ancestors of a normalized path, nearest first, root
excluded: `parentChain "/a/b/c" = ["/a/b", "/a"]`.  `VirtualFs.ensureParentDirs`
recurses through exactly these via `dirname`. -/
def parentChain (path : String) : List String :=
  let parts := splitChar (normalizePath path) '/' |>.filter (· ≠ "")
  (List.range parts.length).filterMap fun n =>
    if n = 0 ∨ n = parts.length then none
    else some ("/" ++ joinSep "/" (parts.take n))

/-- `VirtualFs.ensureParentDirs`: create every missing ancestor
directory of `path` (the source recurses top-down through `dirname`;
enumerating the ancestor chain farthest-first is the same action on
the map). -/
def ensureParentDirs (fs : FsMap) (path : String) : FsMap :=
  (parentChain path).reverse.foldl
    (fun fs dir => if (fsGet fs dir).isSome then fs else fsSet fs dir (.dir 0o755))
    fs

/-- `VirtualFs.writeFileSync` (also the body of the async `writeFile`,
which never throws): normalize, create parents, store the file. -/
def writeFileSync (fs : FsMap) (path content : String) : FsMap :=
  let normalized := normalizePath path
  fsSet (ensureParentDirs fs normalized) normalized (.file content 0o644)

/-- `VirtualFs.readFile`: `ENOENT` when absent, `EISDIR` on a
directory, otherwise the content. -/
def fsReadFile (fs : FsMap) (path : String) : Except String String :=
  match fsGet fs (normalizePath path) with
  | none => .error ("ENOENT: no such file or directory, open '" ++ path ++ "'")
  | some (.dir _) => .error ("EISDIR: illegal operation on a directory, read '" ++ path ++ "'")
  | some (.file content _) => .ok content

/-- `VirtualFs.appendFile`: throws `EISDIR` when the target is a
directory, otherwise appends to the existing content (empty when the
file is absent). -/
def fsAppendFile (fs : FsMap) (path content : String) : Except String FsMap :=
  let normalized := normalizePath path
  match fsGet fs normalized with
  | some (.dir _) =>
    .error ("EISDIR: illegal operation on a directory, write '" ++ path ++ "'")
  | some (.file current _) => .ok (writeFileSync fs path (current ++ content))
  | none => .ok (writeFileSync fs path content)

/-- `VirtualFs.stat`: `(isFile, isDirectory)`, `ENOENT` when absent. -/
def fsStat (fs : FsMap) (path : String) : Except String (Bool × Bool) :=
  match fsGet fs (normalizePath path) with
  | none => .error ("ENOENT: no such file or directory, stat '" ++ path ++ "'")
  | some (.file _ _) => .ok (true, false)
  | some (.dir _) => .ok (false, true)

/-- `VirtualFs.resolvePath(base, path)`: absolute paths are normalized
as-is, relative ones are joined to the base first. -/
def resolvePath (base path : String) : String :=
  if strStartsWith path "/" then normalizePath path
  else normalizePath (if base = "/" then "/" ++ path else base ++ "/" ++ path)

/-! ## `parseInt(s, 10)` -/

/-- Leading decimal digit run of `parseInt`. -/
def parseIntDigits : List Char → Option Nat → Option Nat
  | [], acc => acc
  | c :: rest, acc =>
    if c.isDigit then
      parseIntDigits rest (some ((acc.getD 0) * 10 + (c.toNat - '0'.toNat)))
    else acc

/-- JavaScript `parseInt(s, 10)`: skip leading whitespace, read an
optional sign and a leading run of decimal digits; `none` is `NaN`. -/
def jsParseInt (s : String) : Option Int :=
  let cs := s.data.dropWhile fun c => c = ' ' ∨ c = '\t' ∨ c = '\n' ∨ c = '\r'
  match cs with
  | '-' :: rest => (parseIntDigits rest none).map fun n => -(n : Int)
  | '+' :: rest => (parseIntDigits rest none).map fun n => (n : Int)
  | _ => (parseIntDigits cs none).map fun n => (n : Int)

/-! ## Variable expansion (`BashEnv.expandVariables`, the character
scanner at the bottom of `src/types.ts`) -/

/-- The regex `/^([^:]+):-(.*)$/` applied to the text between the
braces of a `$\x7b...\x7d` expansion: a nonempty colon-free name followed by
the literal `:-` and the default text. -/
def bracedDefaultMatch (content : String) : Option (String × String) :=
  match content.data.span (· ≠ ':') with
  | (name, ':' :: '-' :: rest) =>
    if name = [] then none
    else some (⟨name⟩, ⟨rest⟩)
  | _ => none

/-- `c` matches `[A-Za-z_]`. -/
def isVarStart (c : Char) : Bool :=
  ('A' ≤ c ∧ c ≤ 'Z') ∨ ('a' ≤ c ∧ c ≤ 'z') ∨ c = '_'

/-- `c` matches `[A-Za-z0-9_]`. -/
def isVarChar (c : Char) : Bool :=
  isVarStart c ∨ c.isDigit

/-- One of the special parameters recognized by
`"@#$?!*".includes(nextChar)`. -/
def isSpecialParam (c : Char) : Bool :=
  c = '@' ∨ c = '#' ∨ c = '$' ∨ c = '?' ∨ c = '!' ∨ c = '*'

/-- The scan loop of `BashEnv.expandVariables` (execution-time
expansion, `src/types.ts` bottom class). On `$`: a braced form with a
closing brace resolves through `bracedDefaultMatch`; special
parameters, positional digits and `[A-Za-z_]\w*` names look up the
environment with `?? ""`; anything else emits the `$` literally. The
fuel dominates the number of loop iterations, each of which consumes
at least one character. -/
def expandVarsGo (env : List (String × String)) : Nat → List Char → String
  | 0, _ => ""
  | _, [] => ""
  | fuel + 1, '$' :: next :: rest =>
    if next = '\x7b' then
      -- str.indexOf("}", i + 2): search the closing brace after "${"
      match rest.span (· ≠ '\x7d') with
      | (content, _ :: afterBrace) =>
        let value :=
          match bracedDefaultMatch ⟨content⟩ with
          | some (varName, defaultValue) => (envGet env varName).getD defaultValue
          | none => (envGet env ⟨content⟩).getD ""
        value ++ expandVarsGo env fuel afterBrace
      | (_, []) =>
        -- no closing brace: the `{` falls through every later test, so
        -- the `$` is emitted and scanning resumes at the brace
        "$" ++ expandVarsGo env fuel ('\x7b' :: rest)
    else if isSpecialParam next ∨ next.isDigit then
      (envGet env ⟨[next]⟩).getD "" ++ expandVarsGo env fuel rest
    else if isVarStart next then
      match (next :: rest).span isVarChar with
      | (varName, after) =>
        (envGet env ⟨varName⟩).getD "" ++ expandVarsGo env fuel after
    else
      "$" ++ expandVarsGo env fuel (next :: rest)
  | fuel + 1, c :: rest =>
    -- also covers a `$` that is the last character (`i + 1 < str.length` fails)
    String.singleton c ++ expandVarsGo env fuel rest

/-- `BashEnv.expandVariables(str)` of the execution engine. -/
def expandVariables (env : List (String × String)) (str : String) : String :=
  expandVarsGo env (str.length + 1) str.data

/-! ## Interpreter state and errors -/

/-- The mutable instance state of one `BashEnv`: working directory,
environment, function table, stack of local-variable scope frames
(top of stack at the head; each frame maps a name to its pre-call
value, `none` recording `undefined`), previous directory, the
resource-guard counters and limits, and the shared `VirtualFs` data. -/
structure ShellState where
  cwd : String
  env : List (String × String)
  functions : List (String × String)
  localScopes : List (List (String × Option String))
  previousDir : String
  callDepth : Nat
  commandCount : Nat
  maxCallDepth : Nat
  maxCommandCount : Nat
  maxLoopIterations : Nat
  fs : FsMap
deriving Repr, DecidableEq

/-- A JavaScript exception propagating out of an `await`ed call
(`thrown`), or exhaustion of the embedding's fuel (`fuel`, which is an
artifact of the model, never a behaviour of the program). -/
inductive JsErr where
  | thrown (msg : String)
  | fuel
deriving Repr, DecidableEq

/-- State plus either a normal `ExecResult` or a propagating error. -/
abbrev Outcome := ShellState × Except JsErr ExecResult

/-! ## Leaf commands and the registry -/

/-- The `CommandContext` fields a leaf command sees (the filesystem is
passed separately so commands can update it). -/
structure Ctx where
  cwd : String
  env : List (String × String)
  stdin : String
deriving Repr, DecidableEq

/-- A registered command's `execute`: it may update the filesystem and
may throw (`Except.error` is a thrown exception's message). -/
abbrev CommandFn := List String → Ctx → FsMap → FsMap × Except String ExecResult

/-- Flag-parsing loop of the `echo` command (part_006):
`-n`, `-e`, `-E`, `-ne`, `-en`, stopping at the first other
argument. Returns `(noNewline, interpretEscapes, remaining args)`. -/
def echoFlags : List String → Bool → Bool → Bool × Bool × List String
  | [], noNewline, interpretEscapes => (noNewline, interpretEscapes, [])
  | arg :: rest, noNewline, interpretEscapes =>
    if arg = "-n" then echoFlags rest true interpretEscapes
    else if arg = "-e" then echoFlags rest noNewline true
    else if arg = "-E" then echoFlags rest noNewline false
    else if arg = "-ne" ∨ arg = "-en" then echoFlags rest true true
    else (noNewline, interpretEscapes, arg :: rest)

/-- The escape-sequence processing of `echo -e` (part_006): protect
`\\` behind a placeholder, rewrite the named escapes, restore. -/
def echoEscapes (output : String) : String :=
  strReplace (strReplace (strReplace (strReplace (strReplace (strReplace
    (strReplace (strReplace (strReplace output
      "\\\\" "\x00BACKSLASH\x00") "\\n" "\n") "\\t" "\t") "\\r" "\r")
      "\\a" "\x07") "\\b" "\x08") "\\f" "\x0C") "\\v" "\x0B")
      "\x00BACKSLASH\x00" "\\"

/-- The `echo` command (part_006): flags, space-joined arguments,
optional escape interpretation, trailing newline unless `-n`. -/
def echoExecute : CommandFn := fun args _ctx fs =>
  let (noNewline, interpretEscapes, rest) := echoFlags args false false
  let output := joinSep " " rest
  let output := if interpretEscapes then echoEscapes output else output
  let output := if noNewline then output else output ++ "\n"
  (fs, .ok ⟨output, "", 0⟩)

/-- Accumulating loop of the modelled `cat`: read each named file,
appending content to stdout or an error line to stderr. -/
def catFiles (cwd : String) (fs : FsMap) : List String → ExecResult → ExecResult
  | [], acc => acc
  | arg :: rest, acc =>
    match fsReadFile fs (resolvePath cwd arg) with
    | .ok content => catFiles cwd fs rest { acc with stdout := acc.stdout ++ content }
    | .error _ =>
      catFiles cwd fs rest
        { acc with
          stderr := acc.stderr ++ "cat: " ++ arg ++ ": No such file or directory\n"
          exitCode := 1 }

/-- Modelled from the spec: the `cat` leaf command's source is not
under `src/` (only the registry import names it). Spec §6 gives the
`Command` contract it satisfies and §8 fixes the behaviours used here:
with no file arguments `cat` copies its stdin to stdout
(`"echo hi | cat | cat"` → `"hi\n"`), with file arguments it
concatenates their contents, and a missing file produces an error line
on stderr with exit code 1 (`"cat /nonexistent && echo second"` →
stdout `""`, exit 1). `cat` never throws. -/
def catExecute : CommandFn := fun args ctx fs =>
  if args = [] then (fs, .ok ⟨ctx.stdin, "", 0⟩)
  else (fs, .ok (catFiles ctx.cwd fs args ⟨"", "", 0⟩))

/-- Modelled from the spec: the registry built by
`createLazyCommands()` (`src/commands/registry.ts`, not under `src/`)
maps each leaf-command name to its implementation; the claims exercise
only `echo` (part_006) and `cat`. Other names fall through to the
engine's command-not-found branch. -/
def defaultRegistry (name : String) : Option CommandFn :=
  if name = "echo" then some echoExecute
  else if name = "cat" then some catExecute
  else none

/-! ## Small string helpers shared by the builtins -/

/-- First index of a character, `none` when absent
(JavaScript `indexOf` returning `-1`). -/
def strIndexOfCharGo : List Char → Char → Nat → Option Nat
  | [], _, _ => none
  | c :: rest, t, i => if c = t then some i else strIndexOfCharGo rest t (i + 1)

/-- `s.indexOf(c)`, `none` for `-1`. -/
def strIndexOfChar (s : String) (c : Char) : Option Nat :=
  strIndexOfCharGo s.data c 0

/-- `s.slice(0, i)`. -/
def sliceTo (s : String) (i : Nat) : String := ⟨s.data.take i⟩

/-- `s.slice(i)`. -/
def sliceFrom (s : String) (i : Nat) : String := ⟨s.data.drop i⟩

/-- The apostrophe character (spelled by code to keep source lexing
simple). -/
def squoteChar : Char := '\x27'

/-- The backtick character. -/
def backquoteChar : Char := '\x60'

/-- An identifier per the regex `^[a-zA-Z_][a-zA-Z0-9_]*$` used by the
`VAR=value` assignment branch of `executeCommand`. -/
def isIdentName (s : String) : Bool :=
  match s.data with
  | [] => false
  | c :: rest => isVarStart c ∧ rest.all isVarChar

/-! ## Builtins of the execution engine (bottom `BashEnv` class) -/

/-- `BashEnv.handleCd`: resolve `-`, `~` and relative targets, require
a directory, update `cwd` and `previousDir`.  JavaScript truthiness:
an empty first argument or an empty `HOME` falls through. -/
def handleCd (st : ShellState) (args : List String) : ShellState × ExecResult :=
  let a0 := args.head?.getD ""
  let home := (envGet st.env "HOME").getD ""
  let target := if a0 ≠ "" then a0 else if home ≠ "" then home else "/"
  let newDir :=
    if target = "-" then st.previousDir
    else if target = "~" then (if home ≠ "" then home else "/")
    else resolvePath st.cwd target
  match fsStat st.fs newDir with
  | .error _ =>
    (st, ⟨"", "cd: " ++ target ++ ": No such file or directory\n", 1⟩)
  | .ok (_, isDirectory) =>
    if isDirectory then
      ({ st with previousDir := st.cwd, cwd := newDir }, ⟨"", "", 0⟩)
    else
      (st, ⟨"", "cd: " ++ target ++ ": Not a directory\n", 1⟩)

/-- `BashEnv.handleExport` (the inline builtin of the bottom `BashEnv`
class): each `NAME=value` argument with `=` at a positive index sets
the variable; every other argument is ignored. -/
def handleExportEnv (env : List (String × String)) : List String → List (String × String)
  | [] => env
  | arg :: rest =>
    match strIndexOfChar arg '=' with
    | some eqIndex =>
      if 0 < eqIndex then
        handleExportEnv (envSet env (sliceTo arg eqIndex) (sliceFrom arg (eqIndex + 1))) rest
      else handleExportEnv env rest
    | none => handleExportEnv env rest

/-- `BashEnv.handleUnset`: delete each named variable. -/
def handleUnset (env : List (String × String)) : List String → List (String × String)
  | [] => env
  | arg :: rest => handleUnset (envDelete env arg) rest

/-- Lookup in a local-scope frame (`Map.has` / `Map.get`; the outer
`Option` is membership, the inner one is the recorded pre-call value). -/
def frameGet : List (String × Option String) → String → Option (Option String)
  | [], _ => none
  | (k', v) :: rest, k => if k' = k then some v else frameGet rest k

/-- The `for (const arg of args)` loop of `BashEnv.handleLocal`:
record the pre-call value in the frame unless already recorded, then
assign (`NAME=value`) or default to empty when the variable is new. -/
def localLoop : List String → List (String × Option String) → List (String × String) →
    List (String × Option String) × List (String × String)
  | [], frame, env => (frame, env)
  | arg :: rest, frame, env =>
    let (varName, value) :=
      match strIndexOfChar arg '=' with
      | some eqIndex =>
        if 0 < eqIndex then (sliceTo arg eqIndex, some (sliceFrom arg (eqIndex + 1)))
        else (arg, (none : Option String))
      | none => (arg, none)
    let frame :=
      if (frameGet frame varName).isSome then frame
      else frame ++ [(varName, envGet env varName)]
    let env :=
      match value with
      | some v => envSet env varName v
      | none => if envHas env varName then env else envSet env varName ""
    localLoop rest frame env

/-- `BashEnv.handleLocal`: an error outside a function call, otherwise
`localLoop` over the top scope frame (the head of `localScopes`). -/
def handleLocal (st : ShellState) (args : List String) : ShellState × ExecResult :=
  match st.localScopes with
  | [] => (st, ⟨"", "bash: local: can only be used in a function\n", 1⟩)
  | frame :: restScopes =>
    let (frame', env') := localLoop args frame st.env
    ({ st with localScopes := frame' :: restScopes, env := env' }, ⟨"", "", 0⟩)

/-! ## The registry `export` builtin (part_003,
`src/interpreter/builtins/export.ts`) -/

/-- Insertion into a key-sorted list (modelling the
`sort(([a],[b]) => a.localeCompare(b))` of the export listing by
code-point order). -/
def insertByKey (p : String × String) : List (String × String) → List (String × String)
  | [] => [p]
  | q :: rest =>
    if charListLe p.1.data q.1.data then p :: q :: rest else q :: insertByKey p rest

/-- Sort an association list by key. -/
def sortByKey (l : List (String × String)) : List (String × String) :=
  l.foldr insertByKey []

/-- One `declare -x NAME='value'` line of the export listing, the
value single-quoted with embedded quotes escaped as in the source
(`value.replace(/'/g, "'\\''")`). -/
def exportLine (p : String × String) : String :=
  let sq := String.singleton squoteChar
  let escaped := strReplace p.2 sq (sq ++ "\\" ++ sq ++ sq)
  "declare -x " ++ p.1 ++ "=" ++ sq ++ escaped ++ sq ++ "\n"

/-- The no-argument listing of `handleExport` (part_003): entries not
prefixed `BASH_ALIAS_`, sorted by name, one `declare -x` line each. -/
def exportListing (env : List (String × String)) : String :=
  String.join ((sortByKey (env.filter fun p => ¬strStartsWith p.1 "BASH_ALIAS_")).map exportLine)

/-- The flag scan of `handleExport` (part_003): `-n` sets the unexport
flag, `-p` and `--` are dropped, everything else is kept. -/
def exportScanArgs : List String → Bool → Bool × List String
  | [], unexport => (unexport, [])
  | arg :: rest, unexport =>
    if arg = "-n" then exportScanArgs rest true
    else if arg = "-p" ∨ arg = "--" then exportScanArgs rest unexport
    else
      let (u, kept) := exportScanArgs rest unexport
      (u, arg :: kept)

/-- The assignment loop of `handleExport` (part_003): `NAME=value`
sets; a bare `NAME` is created empty only when absent. -/
def exportAssign (env : List (String × String)) : List String → List (String × String)
  | [] => env
  | arg :: rest =>
    if arg.data.contains '=' then
      match strIndexOfChar arg '=' with
      | some eqIdx =>
        exportAssign (envSet env (sliceTo arg eqIdx) (sliceFrom arg (eqIdx + 1))) rest
      | none => exportAssign env rest
    else if envHas env arg then exportAssign env rest
    else exportAssign (envSet env arg "") rest

/-- `handleExport` of part_003 (the registry `export` builtin): list
all exported variables when called with no effective arguments,
un-export with `-n`, otherwise set / create each named variable. -/
def handleExport (env : List (String × String)) (args : List String) :
    List (String × String) × ExecResult :=
  let (unexport, processedArgs) := exportScanArgs args false
  if processedArgs = [] ∧ ¬unexport then
    (env, ⟨exportListing env, "", 0⟩)
  else if unexport then
    let env' := processedArgs.foldl
      (fun env arg => envDelete env (sliceTo arg ((strIndexOfChar arg '=').getD arg.length)))
      env
    (env', ⟨"", "", 0⟩)
  else
    (exportAssign env processedArgs, ⟨"", "", 0⟩)

/-! ## Glob expansion -/

/-- An argument containing `*`, `?` or `[` is a glob candidate. -/
def hasGlobChar (s : String) : Bool :=
  s.data.any fun c => c = '*' ∨ c = '?' ∨ c = '['

/-- Glob matching of one pattern against one path: `*` matches any
run, `?` one character, `[...]` a character set. Fuel bounds the
backtracking (every step drops a pattern or subject character). -/
def globMatchGo : Nat → List Char → List Char → Bool
  | 0, _, _ => false
  | _ + 1, [], s => s.isEmpty
  | fuel + 1, '*' :: pr, s =>
    globMatchGo fuel pr s ||
      match s with
      | [] => false
      | _ :: srest => globMatchGo fuel ('*' :: pr) srest
  | fuel + 1, '?' :: pr, s =>
    match s with
    | [] => false
    | _ :: srest => globMatchGo fuel pr srest
  | fuel + 1, '[' :: pr, s =>
    match s with
    | [] => false
    | c :: srest =>
      match pr.span (· ≠ ']') with
      | (cls, _ :: prRest) => cls.contains c ∧ globMatchGo fuel prRest srest
      | (_, []) => false
  | fuel + 1, p :: pr, s =>
    match s with
    | [] => false
    | c :: srest => p = c ∧ globMatchGo fuel pr srest

/-- Match a glob pattern against a full path. -/
def globMatch (pattern path : String) : Bool :=
  globMatchGo (pattern.length + path.length + 1) pattern.data path.data

/-- Modelled from the spec: `GlobExpander.expandArgs`
(`src/shell/index.ts`, not under `src/`). Per spec §4.2, glob expansion
runs only on unquoted arguments containing `*`, `?` or `[`, matching
the pattern (resolved relative to cwd) against the full path set the
filesystem exposes; a pattern matching nothing stays a literal token.
Matches are returned as the sorted matching paths. -/
def globExpandArg (fs : FsMap) (cwd : String) (arg : String) (quoted : Bool) : List String :=
  if quoted ∨ ¬hasGlobChar arg then [arg]
  else
    let pattern := if strStartsWith arg "/" then arg
      else (if cwd = "/" then "/" ++ arg else cwd ++ "/" ++ arg)
    let found := sortStrings ((fs.map Prod.fst).filter (globMatch pattern ·))
    if found = [] then [arg] else found

/-- Modelled from the spec: expansion over the whole argument list; a
missing entry of `quotedArgs` reads as unquoted (JavaScript
`quotedArgs[i]` being `undefined`). -/
def globExpandArgs (fs : FsMap) (cwd : String) (args : List String)
    (quotedArgs : List Bool) : List String :=
  ((args.enum).map fun (i, arg) =>
    globExpandArg fs cwd arg (quotedArgs.getD i false)).flatten

/-! ## The shell parser

`BashEnv` imports `ShellParser` and `GlobExpander` from
`src/shell/index.js`, which is not under `src/`; the parser is
modelled from the spec (§4.1 tokenizer rules, §4.3 pipeline/chain
splitting) and from its in-repo predecessor (the `splitPipelines`,
`splitChainedCommands`, `parseCommand` and `parseAndExpandVariable`
methods of the legacy `BashEnv` class in `src/types.ts`). -/

/-- Parse-time expansion of one `$...` reference inside double quotes,
mirroring `parseAndExpandVariable` of the legacy class: braced forms
(with `:-` default), else a `[A-Za-z_]`-led name; a lone or ill-formed
`$` stays literal. Takes the characters after the `$`, returns the
expansion and the unconsumed rest. -/
def parseExpandVar (env : List (String × String)) : List Char → String × List Char
  | [] => ("$", [])
  | '\x7b' :: rest =>
    (match rest.span (· ≠ '\x7d') with
    | (content, _ :: after) =>
      let c : String := ⟨content⟩
      match bracedDefaultMatch c with
      | some (varName, defaultValue) => ((envGet env varName).getD defaultValue, after)
      | none => ((envGet env c).getD "", after)
    | (_, []) => ("$\x7b", rest))
  | c :: rest =>
    if c.isDigit ∨ ¬isVarChar c then ("$", c :: rest)
    else
      match (c :: rest).span isVarChar with
      | (varName, after) => ((envGet env ⟨varName⟩).getD "", after)

/-- Modelled from the spec: the quoting-aware tokenizer (§4.1). Single
quotes suppress everything; double quotes allow variable expansion
(performed at parse time, as `executeCommand`'s comment records) and
the escapes `\" \\ \$` and backslash-backquote; outside quotes a
backslash escapes the next character and space/tab separates tokens;
adjacent fragments concatenate. Each token carries a flag recording
whether any part of it was quoted. -/
def tokenizeGo (env : List (String × String)) :
    Nat → List Char → Option Char → String → Bool → List (String × Bool) →
    List (String × Bool)
  | 0, _, _, current, quoted, acc =>
    acc ++ (if current = "" ∧ ¬quoted then [] else [(current, quoted)])
  | _ + 1, [], _, current, quoted, acc =>
    acc ++ (if current = "" ∧ ¬quoted then [] else [(current, quoted)])
  | fuel + 1, '\\' :: next :: rest, inQuote, current, quoted, acc =>
    if inQuote = some squoteChar then
      tokenizeGo env fuel (next :: rest) inQuote (current.push '\\') quoted acc
    else if inQuote = some '"' then
      if next = '"' ∨ next = '\\' ∨ next = '$' ∨ next = backquoteChar then
        tokenizeGo env fuel rest inQuote (current.push next) quoted acc
      else
        tokenizeGo env fuel (next :: rest) inQuote (current.push '\\') quoted acc
    else
      tokenizeGo env fuel rest inQuote (current.push next) quoted acc
  | fuel + 1, c :: rest, inQuote, current, quoted, acc =>
    if c = '$' ∧ inQuote = some '"' then
      let (value, remaining) := parseExpandVar env rest
      tokenizeGo env fuel remaining inQuote (current ++ value) quoted acc
    else if c = '"' ∨ c = squoteChar then
      match inQuote with
      | some q =>
        if q = c then tokenizeGo env fuel rest none current true acc
        else tokenizeGo env fuel rest inQuote (current.push c) quoted acc
      | none => tokenizeGo env fuel rest (some c) current true acc
    else if inQuote = none ∧ (c = ' ' ∨ c = '\t') then
      if current = "" ∧ ¬quoted then tokenizeGo env fuel rest none "" false acc
      else tokenizeGo env fuel rest none "" false (acc ++ [(current, quoted)])
    else
      tokenizeGo env fuel rest inQuote (current.push c) quoted acc

/-- Tokenize one stage's text. -/
def tokenize (env : List (String × String)) (s : String) : List (String × Bool) :=
  tokenizeGo env (s.length + 1) s.data none "" false []

/-- Modelled from the spec: the leading-`!` negation count of a stage
(§4.3) — the number of leading bare `!` tokens, which are consumed. -/
def splitNegations : List (String × Bool) → Nat × List (String × Bool)
  | ("!", false) :: rest =>
    let (n, r) := splitNegations rest
    (n + 1, r)
  | toks => (0, toks)

/-- A standalone redirection-operator token that takes the next token
as its target. -/
def opToken (tok : String) : Bool :=
  tok = ">>" ∨ tok = ">" ∨ tok = "2>>" ∨ tok = "2>" ∨ tok = "<"

/-- A token that is a complete redirection on its own: `2>&1`, or an
operator with the target attached. -/
def attachedRedir (tok : String) : Option Redirection :=
  if tok = "2>&1" then some ⟨.stderrToStdout, none, false⟩
  else if strStartsWith tok "2>>" then some ⟨.rstderr, some (sliceFrom tok 3), true⟩
  else if strStartsWith tok "2>" then some ⟨.rstderr, some (sliceFrom tok 2), false⟩
  else if strStartsWith tok ">>" then some ⟨.rstdout, some (sliceFrom tok 2), true⟩
  else if strStartsWith tok ">" then some ⟨.rstdout, some (sliceFrom tok 1), false⟩
  else if strStartsWith tok "<" then some ⟨.rstdin, some (sliceFrom tok 1), false⟩
  else none

/-- Modelled from the spec: redirection extraction (§3, §4.4). An
unquoted `2>&1` merges stderr into stdout; unquoted `>` `>>` `2>`
`2>>` `<` (either standalone followed by a target token, or with the
target attached) become `Redirection` records and leave the argument
list. The fuel dominates the token count. -/
def extractRedirsGo : Nat → List (String × Bool) → List (String × Bool) × List Redirection
  | 0, toks => (toks, [])
  | _ + 1, [] => ([], [])
  | fuel + 1, (tok, quoted) :: rest =>
    if quoted then
      let (ts, rs) := extractRedirsGo fuel rest
      ((tok, quoted) :: ts, rs)
    else if opToken tok then
      match rest with
      | (target, _) :: rest2 =>
        let kind := if tok = "<" then RedirKind.rstdin
          else if strStartsWith tok "2" then RedirKind.rstderr else RedirKind.rstdout
        let (ts, rs) := extractRedirsGo fuel rest2
        (ts, ⟨kind, some target, tok = ">>" ∨ tok = "2>>"⟩ :: rs)
      | [] => ([(tok, quoted)], [])
    else
      match attachedRedir tok with
      | some r =>
        let (ts, rs) := extractRedirsGo fuel rest
        (ts, r :: rs)
      | none =>
        let (ts, rs) := extractRedirsGo fuel rest
        ((tok, quoted) :: ts, rs)

/-- Extract the redirections of one stage's token list. -/
def extractRedirs (toks : List (String × Bool)) :
    List (String × Bool) × List Redirection :=
  extractRedirsGo (toks.length + 1) toks

/-- Modelled from the spec: stage splitting (§4.3). One quote-aware
scan splits the line on `|` (with two-character lookahead so `||`
never splits there), `&&`, `||` and `;`, recording for each resulting
stage the operator that preceded it (`""` for the first stage and for
pipe-connected stages). Mirrors the structure of the legacy
`splitPipelines` / `splitChainedCommands` scanners, including their
quote toggling that ignores a quote preceded by a backslash. -/
def splitStagesGo :
    Nat → List Char → Option Char → Option Char → String → String →
    List (String × String) → List (String × String)
  | 0, _, _, _, current, lastOp, acc =>
    acc ++ (if strTrim current = "" then [] else [(strTrim current, lastOp)])
  | _ + 1, [], _, _, current, lastOp, acc =>
    acc ++ (if strTrim current = "" then [] else [(strTrim current, lastOp)])
  | fuel + 1, c :: rest, inQuote, prev, current, lastOp, acc =>
    if (c = '"' ∨ c = squoteChar) ∧ prev ≠ some '\\' then
      match inQuote with
      | some q =>
        if q = c then splitStagesGo fuel rest none (some c) (current.push c) lastOp acc
        else splitStagesGo fuel rest inQuote (some c) (current.push c) lastOp acc
      | none => splitStagesGo fuel rest (some c) (some c) (current.push c) lastOp acc
    else if inQuote = none then
      match c, rest with
      | '&', '&' :: rest2 =>
        splitStagesGo fuel rest2 none (some '&') "" "&&" (acc ++ [(strTrim current, lastOp)])
      | '|', '|' :: rest2 =>
        splitStagesGo fuel rest2 none (some '|') "" "||" (acc ++ [(strTrim current, lastOp)])
      | ';', _ =>
        splitStagesGo fuel rest none (some ';') "" ";" (acc ++ [(strTrim current, lastOp)])
      | '|', _ =>
        splitStagesGo fuel rest none (some '|') "" "" (acc ++ [(strTrim current, lastOp)])
      | _, _ => splitStagesGo fuel rest none (some c) (current.push c) lastOp acc
    else
      splitStagesGo fuel rest inQuote (some c) (current.push c) lastOp acc

/-- Split a command line into `(stage text, preceding operator)`
pairs. -/
def splitStages (line : String) : List (String × String) :=
  splitStagesGo (line.length + 1) line.data none none "" "" []

/-- Build one `PipelineCommand` from a stage's text and preceding
operator: tokenize, strip leading `!` tokens, extract redirections;
the first remaining token is the command word. -/
def parseStage (env : List (String × String)) (stage : String × String) : PipelineCommand :=
  let toks := tokenize env stage.1
  let (neg, toks) := splitNegations toks
  let (toks, redirs) := extractRedirs toks
  match toks with
  | [] => ⟨⟨"", [], [], redirs⟩, stage.2, neg⟩
  | (cmd, _) :: restToks =>
    ⟨⟨cmd, restToks.map Prod.fst, restToks.map Prod.snd, redirs⟩, stage.2, neg⟩

/-- Modelled from the spec: `ShellParser.parse` — the pipelines of one
command line. Chain operators are represented inside a single
`Pipeline` (its stages carry the operators), which is how
`executePipeline` consumes them. -/
def shellParse (env : List (String × String)) (line : String) : List Pipeline :=
  match splitStages line with
  | [] => []
  | stages => [⟨stages.map (parseStage env)⟩]

/-! ## Compound-statement parsing (`parseIfStatement`,
`parseFunctionDefinition` and the loop regexes of the bottom
`BashEnv` class) -/

/-- `\s` of the regexes. -/
def isWsChar (c : Char) : Bool :=
  c = ' ' ∨ c = '\t' ∨ c = '\n' ∨ c = '\r'

/-- `(\s|;|$)` at the head of the remaining characters. -/
def sepAfter : List Char → Bool
  | [] => true
  | c :: _ => isWsChar c ∨ c = ';'

/-- Skip the `;`/space run after `then` / `else`
(`while (rest[pos] === ";" || rest[pos] === " ") pos++`). -/
def skipSemiSpace (cs : List Char) : List Char :=
  cs.dropWhile fun c => c = ';' ∨ c = ' '

/-- `currentCondition.trim() || null` of the branch pushed at `fi`. -/
def optOfCond (cond : String) : Option String :=
  if strTrim cond = "" then none else some (strTrim cond)

/-- The depth-counted scan of `parseIfStatement`: nested `if`
increments the depth; `then`, `elif`, `else` and `fi` are structural
only at depth 1; a `fi` closing depth 1 ends the statement. Returns
the final depth (`0` exactly when the statement closed) and the
collected `(condition, body)` branches. Fuel bounds the iteration
count; every step consumes at least one character. -/
def ifScanGo : Nat → List Char → Nat → Bool → String → String →
    List (Option String × String) → Nat × List (Option String × String)
  | 0, _, depth, _, _, _, branches => (depth, branches)
  | _ + 1, [], depth, _, _, _, branches => (depth, branches)
  | fuel + 1, c :: restChars, depth, inBody, cond, body, branches =>
    let cs := c :: restChars
    if cs.take 2 = ['i', 'f'] ∧ (cs.drop 2).head?.elim false isWsChar = true then
      ifScanGo fuel (cs.drop 3) (depth + 1) inBody
        (if inBody then cond else cond ++ "if ")
        (if inBody then body ++ "if " else body) branches
    else if cs.take 2 = ['f', 'i'] ∧ sepAfter (cs.drop 2) then
      if depth = 1 then
        (0, if inBody then branches ++ [(optOfCond cond, strTrim body)] else branches)
      else
        ifScanGo fuel (cs.drop 2) (depth - 1) inBody
          (if inBody then cond else cond ++ "fi")
          (if inBody then body ++ "fi" else body) branches
    else if depth = 1 ∧ cs.take 4 = ['t', 'h', 'e', 'n'] ∧ sepAfter (cs.drop 4) then
      ifScanGo fuel (skipSemiSpace (cs.drop 4)) depth true cond body branches
    else if depth = 1 ∧ cs.take 4 = ['e', 'l', 'i', 'f'] ∧
        (cs.drop 4).head?.elim false isWsChar = true then
      let branches :=
        if strTrim cond ≠ "" ∨ strTrim body ≠ "" then branches ++ [(some (strTrim cond), strTrim body)]
        else branches
      ifScanGo fuel (cs.drop 5) depth false "" "" branches
    else if depth = 1 ∧ cs.take 4 = ['e', 'l', 's', 'e'] ∧ sepAfter (cs.drop 4) then
      let branches :=
        if strTrim cond ≠ "" ∨ strTrim body ≠ "" then branches ++ [(some (strTrim cond), strTrim body)]
        else branches
      ifScanGo fuel (skipSemiSpace (cs.drop 4)) depth true "" "" branches
    else if ¬inBody then
      if c = ';' then
        ifScanGo fuel (restChars.dropWhile (· = ' ')) depth inBody cond body branches
      else ifScanGo fuel restChars depth inBody (cond.push c) body branches
    else ifScanGo fuel restChars depth inBody cond (body.push c) branches

/-- `BashEnv.parseIfStatement`: structure an `if` statement into
branches, or a syntax-error message (the engine turns it into exit
code 2). -/
def parseIfStatement (input : String) : Except String (List (Option String × String)) :=
  let r := strTrim input
  if ¬(strStartsWith r "if " ∨ strStartsWith r "if;") then
    .error "bash: syntax error near unexpected token\n"
  else
    let rest := strTrim (sliceFrom r 2)
    let (depth, branches) := ifScanGo (rest.length + 1) rest.data 1 false "" "" []
    let branches :=
      match branches.getLast? with
      | some (some "", b) => branches.dropLast ++ [(none, b)]
      | _ => branches
    if depth ≠ 0 then .error "bash: syntax error: unexpected end of file\n"
    else if branches = [] then .error "bash: syntax error near unexpected token\n"
    else .ok branches

/-- The whole-`(.*)`-to-closing-brace capture of the function-definition
regexes: the greedy body ends at the last `\x7d` that is followed only
by whitespace. -/
def closingBody (cs : List Char) : Option (List Char) :=
  match cs.reverse.dropWhile isWsChar with
  | '\x7d' :: rbody => some rbody.reverse
  | _ => none

/-- Read `[a-zA-Z_][a-zA-Z0-9_]*` from the head. -/
def readIdent (cs : List Char) : Option (String × List Char) :=
  match cs with
  | c :: _ =>
    if isVarStart c then
      match cs.span isVarChar with
      | (name, rest) => some (⟨name⟩, rest)
    else none
  | [] => none

/-- `BashEnv.parseFunctionDefinition`: `function name { body }` or
`name() { body }` (bodies trimmed), `none` when neither regex
matches. -/
def parseFunctionDef (input : String) : Option (String × String) :=
  let cs := input.data
  let kwForm :=
    if cs.take 8 = "function".data ∧ (cs.drop 8).head?.elim false isWsChar = true then
      match readIdent ((cs.drop 8).dropWhile isWsChar) with
      | some (name, rest) =>
        match rest.dropWhile isWsChar with
        | '\x7b' :: afterBrace =>
          (closingBody afterBrace).map fun b => (name, strTrim ⟨b⟩)
        | _ => none
      | none => none
    else none
  match kwForm with
  | some r => some r
  | none =>
    match readIdent cs with
    | some (name, rest) =>
      match rest.dropWhile isWsChar with
      | '(' :: rest2 =>
        match rest2.dropWhile isWsChar with
        | ')' :: rest3 =>
          match rest3.dropWhile isWsChar with
          | '\x7b' :: afterBrace =>
            (closingBody afterBrace).map fun b => (name, strTrim ⟨b⟩)
          | _ => none
        | _ => none
      | _ => none
    | none => none

/-- Match `\s*;\s*do\s+` at the head; the greedy trailing `\s+` is
consumed in full. Returns the rest after the marker. -/
def markerSemiDo (cs : List Char) : Option (List Char) :=
  match cs.dropWhile isWsChar with
  | ';' :: rest =>
    match rest.dropWhile isWsChar with
    | 'd' :: 'o' :: w :: rest2 =>
      if isWsChar w then some ((w :: rest2).dropWhile isWsChar) else none
    | _ => none
  | _ => none

/-- Match `\s+do\s+` at the head (the no-semicolon loop variants). -/
def markerWsDo (cs : List Char) : Option (List Char) :=
  match cs with
  | w0 :: _ =>
    if isWsChar w0 then
      match cs.dropWhile isWsChar with
      | 'd' :: 'o' :: w :: rest2 =>
        if isWsChar w then some ((w :: rest2).dropWhile isWsChar) else none
      | _ => none
    else none
  | [] => none

/-- Does `\s*;\s*done\s*$` match the whole remaining input? -/
def semiDoneEnd (cs : List Char) : Bool :=
  match cs.dropWhile isWsChar with
  | ';' :: rest =>
    match rest.dropWhile isWsChar with
    | 'd' :: 'o' :: 'n' :: 'e' :: rest2 => (rest2.dropWhile isWsChar).isEmpty
    | _ => false
  | _ => false

/-- Lazy `(.*?)` capture: the shortest prefix whose suffix matches the
marker; `none` when no split matches. -/
def lazyCapture (marker : List Char → Option (List Char)) :
    Nat → List Char → Option (List Char × List Char)
  | 0, _ => none
  | fuel + 1, cs =>
    match marker cs with
    | some rest => some ([], rest)
    | none =>
      match cs with
      | [] => none
      | c :: rest =>
        (lazyCapture marker fuel rest).map fun (pre, post) => (c :: pre, post)

/-- Lazy capture up to an end-anchored marker: the shortest prefix
whose suffix satisfies the predicate. -/
def lazyCaptureEnd (endMatch : List Char → Bool) :
    Nat → List Char → Option (List Char)
  | 0, _ => none
  | fuel + 1, cs =>
    if endMatch cs then some []
    else
      match cs with
      | [] => none
      | c :: rest => (lazyCaptureEnd endMatch fuel rest).map (c :: ·)

/-- `BashEnv.executeForLoop`'s two regexes:
`^for\s+(ident)\s+in\s*(.*?)\s*;\s*do\s+(.*?)\s*;\s*done\s*$` and the
variant with `\s+do\s+`. Returns `(variable, list text, body)`. -/
def parseForLoop (input : String) : Option (String × String × String) :=
  match input.data with
  | 'f' :: 'o' :: 'r' :: w :: rest =>
    if isWsChar w then
      match readIdent ((w :: rest).dropWhile isWsChar) with
      | some (varName, rest2) =>
        match rest2 with
        | w2 :: rest3 =>
          if isWsChar w2 then
            match (w2 :: rest3).dropWhile isWsChar with
            | 'i' :: 'n' :: afterIn =>
              let afterIn := afterIn.dropWhile isWsChar
              let viaSemi := do
                let (listCs, afterDo) ← lazyCapture markerSemiDo (afterIn.length + 1) afterIn
                let bodyCs ← lazyCaptureEnd semiDoneEnd (afterDo.length + 1) afterDo
                pure (varName, (⟨listCs⟩ : String), (⟨bodyCs⟩ : String))
              match viaSemi with
              | some r => some r
              | none => do
                let (listCs, afterDo) ← lazyCapture markerWsDo (afterIn.length + 1) afterIn
                let bodyCs ← lazyCaptureEnd semiDoneEnd (afterDo.length + 1) afterDo
                pure (varName, (⟨listCs⟩ : String), (⟨bodyCs⟩ : String))
            | _ => none
          else none
        | [] => none
      | none => none
    else none
  | _ => none

/-- The `while`/`until` loop regexes:
`^kw\s+(.*?)\s*;\s*do\s+(.*?)\s*;\s*done\s*$`, with the
`\s+do\s+` fallback. Returns `(condition, body)`; the caller already
checked the keyword, so this receives the text after `kw `. -/
def parseCondLoop (afterKw : List Char) : Option (String × String) :=
  let afterKw := afterKw.dropWhile isWsChar
  let viaSemi := do
    let (condCs, afterDo) ← lazyCapture markerSemiDo (afterKw.length + 1) afterKw
    let bodyCs ← lazyCaptureEnd semiDoneEnd (afterDo.length + 1) afterDo
    pure ((⟨condCs⟩ : String), (⟨bodyCs⟩ : String))
  match viaSemi with
  | some r => some r
  | none => do
    let (condCs, afterDo) ← lazyCapture markerWsDo (afterKw.length + 1) afterKw
    let bodyCs ← lazyCaptureEnd semiDoneEnd (afterDo.length + 1) afterDo
    pure ((⟨condCs⟩ : String), (⟨bodyCs⟩ : String))

/-! ## The execution engine

`exec` re-enters itself through compound statements and function
bodies, so every component below is parameterized by the nested
entry point `execF : ShellState → String → Outcome`; `exec` ties the
knot over its fuel. -/

/-- The stdin-redirection loop at the top of `executeCommand`: each
`<` redirection with a (truthy) target replaces stdin with the file's
content; a failing read aborts the stage with a file-not-found
result. -/
def stdinRedirects (fs : FsMap) (cwd : String) :
    List Redirection → String → Except ExecResult String
  | [], stdin => .ok stdin
  | r :: rest, stdin =>
    match r.kind, r.target with
    | .rstdin, some t =>
      if t = "" then stdinRedirects fs cwd rest stdin
      else
        match fsReadFile fs (resolvePath cwd t) with
        | .ok content => stdinRedirects fs cwd rest content
        | .error _ => .error ⟨"", "bash: " ++ t ++ ": No such file or directory\n", 1⟩
    | _, _ => stdinRedirects fs cwd rest stdin

/-- `BashEnv.applyRedirections`: post-execution redirection of stdout
and stderr. `writeFile` never throws; `appendFile` throws `EISDIR` on
a directory target, and the source has no handler for that, so the
error propagates (`Except.error`). -/
def applyRedirsGo (cwd : String) (fs : FsMap) (stdout stderr : String) :
    List Redirection → FsMap × Except String (String × String)
  | [] => (fs, .ok (stdout, stderr))
  | r :: rest =>
    match r.kind with
    | .rstdout =>
      match r.target with
      | some t =>
        if t = "" then applyRedirsGo cwd fs stdout stderr rest
        else
          let filePath := resolvePath cwd t
          if r.append then
            match fsAppendFile fs filePath stdout with
            | .error m => (fs, .error m)
            | .ok fs' => applyRedirsGo cwd fs' "" stderr rest
          else applyRedirsGo cwd (writeFileSync fs filePath stdout) "" stderr rest
      | none => applyRedirsGo cwd fs stdout stderr rest
    | .rstderr =>
      if r.target = some "/dev/null" then applyRedirsGo cwd fs stdout "" rest
      else
        match r.target with
        | some t =>
          if t = "" then applyRedirsGo cwd fs stdout stderr rest
          else
            let filePath := resolvePath cwd t
            if r.append then
              match fsAppendFile fs filePath stderr with
              | .error m => (fs, .error m)
              | .ok fs' => applyRedirsGo cwd fs' stdout "" rest
            else applyRedirsGo cwd (writeFileSync fs filePath stderr) stdout "" rest
        | none => applyRedirsGo cwd fs stdout stderr rest
    | .stderrToStdout => applyRedirsGo cwd fs (stdout ++ stderr) "" rest
    | .rstdin => applyRedirsGo cwd fs stdout stderr rest

/-- The branch loop of `executeIfStatement`: conditions evaluate
through nested `exec` in order; the first zero-exit condition (or the
unconditional else branch) selects a body, and no taken branch means
exit 0. Exceptions from the nested calls propagate. -/
def execIfBranches (execF : ShellState → String → Outcome) :
    List (Option String × String) → ShellState → String → String → Int → Outcome
  | [], st, out, err, code => (st, .ok ⟨out, err, code⟩)
  | (none, body) :: _, st, out, err, _ =>
    (match execF st body with
    | (st', .error e) => (st', .error e)
    | (st', .ok r) => (st', .ok ⟨out ++ r.stdout, err ++ r.stderr, r.exitCode⟩))
  | (some cond, body) :: rest, st, out, err, code =>
    match execF st cond with
    | (st', .error e) => (st', .error e)
    | (st', .ok condR) =>
      if condR.exitCode = 0 then
        match execF st' body with
        | (st'', .error e) => (st'', .error e)
        | (st'', .ok r) => (st'', .ok ⟨out ++ r.stdout, err ++ r.stderr, r.exitCode⟩)
      else execIfBranches execF rest st' out err code

/-- `BashEnv.executeIfStatement`: parse (syntax errors exit 2), then
run the branch loop. -/
def executeIfF (execF : ShellState → String → Outcome) (st : ShellState)
    (input : String) : Outcome :=
  match parseIfStatement input with
  | .error msg => (st, .ok ⟨"", msg, 2⟩)
  | .ok branches => execIfBranches execF branches st "" "" 0

/-- The for-loop resource-guard message. -/
def forLoopMsg (n : Nat) : String :=
  "bash: for loop: too many iterations (" ++ toString n ++
    "). Increase with maxLoopIterations option.\n"

/-- The item loop of `executeForLoopBody`: guard the iteration cap
(returning without deleting the variable, as the source does), bind
the loop variable, run the body, accumulate. After the last item the
loop variable is deleted. -/
def forGo (execF : ShellState → String → Outcome) (varName body : String) :
    List String → Nat → ShellState → String → String → Int → Outcome
  | [], _, st, out, err, code =>
    ({ st with env := envDelete st.env varName }, .ok ⟨out, err, code⟩)
  | item :: items, iterations, st, out, err, _code =>
    if iterations ≥ st.maxLoopIterations then
      (st, .ok ⟨out, err ++ forLoopMsg st.maxLoopIterations, 1⟩)
    else
      let st := { st with env := envSet st.env varName item }
      match execF st body with
      | (st', .error e) => (st', .error e)
      | (st', .ok r) =>
        forGo execF varName body items (iterations + 1) st'
          (out ++ r.stdout) (err ++ r.stderr) r.exitCode

/-- `BashEnv.executeForLoopBody`: whitespace-split the list text and
iterate. -/
def execForBody (execF : ShellState → String → Outcome) (st : ShellState)
    (varName listStr body : String) : Outcome :=
  let items := (strSplitPred isWsChar (strTrim listStr)).filter (· ≠ "")
  forGo execF varName body items 0 st "" "" 0

/-- `BashEnv.executeForLoop`: parse (syntax errors exit 2) and run. -/
def executeForF (execF : ShellState → String → Outcome) (st : ShellState)
    (input : String) : Outcome :=
  match parseForLoop input with
  | none => (st, .ok ⟨"", "bash: syntax error near for loop\n", 2⟩)
  | some (varName, listStr, body) => execForBody execF st varName listStr body

/-- The while-loop resource-guard message. -/
def whileLoopMsg (n : Nat) : String :=
  "bash: while loop: too many iterations (" ++ toString n ++
    "). Increase with maxLoopIterations option.\n"

/-- The until-loop resource-guard message. -/
def untilLoopMsg (n : Nat) : String :=
  "bash: until loop: too many iterations (" ++ toString n ++
    "). Increase with maxLoopIterations option.\n"

/-- The loop of `executeWhileLoopBody`, recursing on the remaining
iteration budget (`maxLoopIterations - iterations` in the source's
counter): budget exhausted means the guard `iterations++ >= max`
fired. -/
def whileGo (execF : ShellState → String → Outcome) (cond body : String) :
    Nat → ShellState → String → String → Int → Outcome
  | 0, st, out, err, _ =>
    (st, .ok ⟨out, err ++ whileLoopMsg st.maxLoopIterations, 1⟩)
  | budget + 1, st, out, err, code =>
    match execF st cond with
    | (st', .error e) => (st', .error e)
    | (st', .ok condR) =>
      if condR.exitCode ≠ 0 then (st', .ok ⟨out, err, code⟩)
      else
        match execF st' body with
        | (st'', .error e) => (st'', .error e)
        | (st'', .ok r) =>
          whileGo execF cond body budget st'' (out ++ r.stdout) (err ++ r.stderr) r.exitCode

/-- `BashEnv.executeWhileLoop`. -/
def executeWhileF (execF : ShellState → String → Outcome) (st : ShellState)
    (input : String) : Outcome :=
  match parseCondLoop ((sliceFrom (strTrim input) 6).data) with
  | none => (st, .ok ⟨"", "bash: syntax error near while loop\n", 2⟩)
  | some (cond, body) => whileGo execF cond body st.maxLoopIterations st "" "" 0

/-- The loop of `executeUntilLoopBody`: the mirror of `whileGo`,
stopping when the condition exits 0. -/
def untilGo (execF : ShellState → String → Outcome) (cond body : String) :
    Nat → ShellState → String → String → Int → Outcome
  | 0, st, out, err, _ =>
    (st, .ok ⟨out, err ++ untilLoopMsg st.maxLoopIterations, 1⟩)
  | budget + 1, st, out, err, code =>
    match execF st cond with
    | (st', .error e) => (st', .error e)
    | (st', .ok condR) =>
      if condR.exitCode = 0 then (st', .ok ⟨out, err, code⟩)
      else
        match execF st' body with
        | (st'', .error e) => (st'', .error e)
        | (st'', .ok r) =>
          untilGo execF cond body budget st'' (out ++ r.stdout) (err ++ r.stderr) r.exitCode

/-- `BashEnv.executeUntilLoop`. -/
def executeUntilF (execF : ShellState → String → Outcome) (st : ShellState)
    (input : String) : Outcome :=
  match parseCondLoop ((sliceFrom (strTrim input) 6).data) with
  | none => (st, .ok ⟨"", "bash: syntax error near until loop\n", 2⟩)
  | some (cond, body) => untilGo execF cond body st.maxLoopIterations st "" "" 0

/-- The recursion-limit message of the function-invocation guard. -/
def recursionMsg (name : String) (n : Nat) : String :=
  "bash: " ++ name ++ ": maximum recursion depth (" ++ toString n ++
    ") exceeded. Increase with maxCallDepth option.\n"

/-- The exit code of the `exit` builtin
(`const code = expandedArgs[0] ? parseInt(expandedArgs[0], 10) : 0`
then `Number.isNaN(code) ? 1 : code`): a truthy first argument is
parsed with `parseInt` and passed through unchanged unless `NaN`
(which yields 1); a missing or empty argument yields 0. -/
def exitBuiltinCode (expandedArgs : List String) : Int :=
  let a0 := expandedArgs.head?.getD ""
  if a0 ≠ "" then (jsParseInt a0).getD 1 else 0

/-- The function-invocation branch of `executeCommand`: increment
`callDepth` (decrementing back and failing when it exceeds the
maximum, without executing the body); otherwise push a fresh scope
frame, bind positional parameters, run the stored body through the
nested `exec`, then decrement the depth, pop the frame restoring or
deleting each shadowed name, and clear positional parameters. The
source performs the cleanup only after a normal return — there is no
`try`/`finally` — so a propagating exception skips all of it. -/
def callFunction (execF : ShellState → String → Outcome) (st : ShellState)
    (name funcBody : String) (args : List String) : Outcome :=
  let st := { st with callDepth := st.callDepth + 1 }
  if st.callDepth > st.maxCallDepth then
    ({ st with callDepth := st.callDepth - 1 },
      .ok ⟨"", recursionMsg name st.maxCallDepth, 1⟩)
  else
    let st := { st with localScopes := [] :: st.localScopes }
    let env := (args.enum).foldl
      (fun env (i, a) => envSet env (toString (i + 1)) a) st.env
    let env := envSet env "@" (joinSep " " args)
    let env := envSet env "#" (toString args.length)
    let st := { st with env := env }
    match execF st funcBody with
    | (st', .error e) => (st', .error e)
    | (st', .ok result) =>
      let st' := { st' with callDepth := st'.callDepth - 1 }
      let (st', frame) :=
        match st'.localScopes with
        | [] => (st', ([] : List (String × Option String)))
        | f :: rest => ({ st' with localScopes := rest }, f)
      let env := frame.foldl
        (fun env (varName, originalValue) =>
          match originalValue with
          | none => envDelete env varName
          | some v => envSet env varName v) st'.env
      let env := (List.range args.length).foldl
        (fun env i => envDelete env (toString (i + 1))) env
      let env := envDelete (envDelete env "@") "#"
      ({ st' with env := env }, .ok result)

/-- The registry-dispatch tail of `executeCommand`: resolve the
command name (the last path segment when the word contains `/`),
return 127 for an unknown name, otherwise run the command with any
thrown exception caught at this boundary and converted to
`(name): (message)` on stderr with exit 1, and finally apply
redirections (whose own failures are not caught). -/
def dispatchCommand (reg : String → Option CommandFn) (st : ShellState)
    (command expandedCommand : String) (expandedArgs : List String)
    (redirections : List Redirection) (stdin : String) : Outcome :=
  let popped := ((splitChar expandedCommand '/').getLast?).getD ""
  let commandName :=
    if expandedCommand.data.contains '/' then
      (if popped = "" then expandedCommand else popped)
    else expandedCommand
  match reg commandName with
  | none =>
    (st, .ok ⟨"", "bash: " ++ expandedCommand ++ ": command not found\n", 127⟩)
  | some cmdFn =>
    let ctx : Ctx := ⟨st.cwd, st.env, stdin⟩
    let (fs', outcome) := cmdFn expandedArgs ctx st.fs
    let st := { st with fs := fs' }
    let result :=
      match outcome with
      | .ok r => r
      | .error message => ⟨"", command ++ ": " ++ message ++ "\n", 1⟩
    match applyRedirsGo st.cwd st.fs result.stdout result.stderr redirections with
    | (fs'', .error m) => ({ st with fs := fs'' }, .error (.thrown m))
    | (fs'', .ok (stdout, stderr)) =>
      ({ st with fs := fs'' }, .ok ⟨stdout, stderr, result.exitCode⟩)

/-- `BashEnv.executeCommand`: empty command, stdin redirections,
embedded `if` statements, execution-time variable and glob expansion,
the inline builtins (`cd`, `export`, `unset`, `exit`, `local`), the
`NAME=value` assignment form, user-defined functions, and finally the
registry dispatch. -/
def executeCommandF (execF : ShellState → String → Outcome)
    (reg : String → Option CommandFn) (st : ShellState) (command : String)
    (args : List String) (quotedArgs : List Bool)
    (redirections : List Redirection) (stdin : String) : Outcome :=
  if command = "" then (st, .ok ⟨"", "", 0⟩)
  else
    match stdinRedirects st.fs st.cwd redirections stdin with
    | .error r => (st, .ok r)
    | .ok stdin =>
      if strStartsWith command "if " ∨ strStartsWith command "if;" then
        executeIfF execF st command
      else
        let expandedCommand := expandVariables st.env command
        let varExpandedArgs := (args.enum).map fun (i, arg) =>
          if quotedArgs.getD i false then arg else expandVariables st.env arg
        let expandedArgs := globExpandArgs st.fs st.cwd varExpandedArgs quotedArgs
        if expandedCommand = "cd" then
          let (st', r) := handleCd st expandedArgs
          (st', .ok r)
        else if expandedCommand = "export" then
          ({ st with env := handleExportEnv st.env expandedArgs }, .ok ⟨"", "", 0⟩)
        else if expandedCommand = "unset" then
          ({ st with env := handleUnset st.env expandedArgs }, .ok ⟨"", "", 0⟩)
        else if expandedCommand = "exit" then
          (st, .ok ⟨"", "", exitBuiltinCode expandedArgs⟩)
        else if expandedCommand = "local" then
          let (st', r) := handleLocal st expandedArgs
          (st', .ok r)
        else if expandedArgs = [] ∧ expandedCommand.data.contains '=' ∧
            isIdentName (sliceTo expandedCommand
              ((strIndexOfChar expandedCommand '=').getD 0)) then
          let eqIndex := (strIndexOfChar expandedCommand '=').getD 0
          let env' := envSet st.env (sliceTo expandedCommand eqIndex)
            (sliceFrom expandedCommand (eqIndex + 1))
          ({ st with env := env' }, .ok ⟨"", "", 0⟩)
        else
          let funcBody := (envGet st.functions expandedCommand).getD ""
          if funcBody ≠ "" then callFunction execF st expandedCommand funcBody expandedArgs
          else dispatchCommand reg st command expandedCommand expandedArgs redirections stdin

/-- The per-stage stdin of `executePipeline` (line
`const commandStdin = isPipedInput && i > 0 ? stdin : initialStdin`):
a pipe-connected stage other than the first reads the threaded pipe
stdin, every other stage reads the call's original stdin. -/
def stageStdin (operator : String) (i : Nat) (pipeStdin initialStdin : String) : String :=
  if operator = "" ∧ 0 < i then pipeStdin else initialStdin

/-- The negation flip applied at the end of a pipe-connected run:
`0 → 1`, nonzero `→ 0`. -/
def invertExit (r : ExecResult) : ExecResult :=
  { r with exitCode := if r.exitCode = 0 then 1 else 0 }

/-- The chain-operator gate of `executePipeline` (the two `continue`
lines): a stage runs unless its operator is `&&` with a nonzero last
exit code or `||` with a zero one. -/
def stageRuns (operator : String) (lastExitCode : Int) : Bool :=
  ¬((operator = "&&" ∧ lastExitCode ≠ 0) ∨ (operator = "||" ∧ lastExitCode = 0))

/-- The negation-count capture at the head of each pipe segment
(`if (operator !== "" || i === 0) currentNegationCount = negationCount`). -/
def segmentNeg (operator : String) (i : Nat) (negationCount curNeg : Nat) : Nat :=
  if operator ≠ "" ∨ i = 0 then negationCount else curNeg

/-- The loop state of `executePipeline`: the threaded pipe stdin, the
last (gating) result, the accumulated stdout and stderr, and the
captured negation count of the current pipe segment. -/
structure PLAcc where
  stdin : String
  lastResult : ExecResult
  accOut : String
  accErr : String
  curNeg : Nat
deriving Repr, DecidableEq

/-- The stage loop of `BashEnv.executePipeline`, abstracted over the
stage runner `run` (which `executePipeline` instantiates with
`executeCommand`): capture the segment's negation count at each
segment head, skip stages whose chain operator vetoes them against
the last gating exit code, run the stage on `stageStdin`, thread raw
stdout into the pipe for a pipe-connected successor, and otherwise
close the segment — applying the odd-parity negation flip before the
result gates later stages — while accumulating stdout only from
segment-terminal stages and stderr from every executed stage. -/
def plGo (run : ParsedCommand → String → ShellState → Outcome) (initialStdin : String) :
    List PipelineCommand → Nat → ShellState → PLAcc → Outcome
  | [], _, st, acc => (st, .ok ⟨acc.accOut, acc.accErr, acc.lastResult.exitCode⟩)
  | c :: rest, i, st, acc =>
    let nextOp := match rest.head? with | some n => n.operator | none => ""
    let curNeg := segmentNeg c.operator i c.negationCount acc.curNeg
    if stageRuns c.operator acc.lastResult.exitCode = false then
      plGo run initialStdin rest (i + 1) st { acc with curNeg := curNeg }
    else
      match run c.parsed (stageStdin c.operator i acc.stdin initialStdin) st with
      | (st', .error e) => (st', .error e)
      | (st', .ok result) =>
        if nextOp = "" ∧ rest ≠ [] then
          plGo run initialStdin rest (i + 1) st'
            ⟨result.stdout, result, acc.accOut, acc.accErr ++ result.stderr, curNeg⟩
        else
          let adjusted := if curNeg % 2 = 1 then invertExit result else result
          plGo run initialStdin rest (i + 1) st'
            ⟨acc.stdin, adjusted, acc.accOut ++ adjusted.stdout,
              acc.accErr ++ result.stderr, curNeg⟩

/-- `BashEnv.executePipeline`. -/
def executePipelineF (run : ParsedCommand → String → ShellState → Outcome)
    (p : Pipeline) (initialStdin : String) (st : ShellState) : Outcome :=
  plGo run initialStdin p.commands 0 st ⟨initialStdin, ⟨"", "", 0⟩, "", "", 0⟩

/-- How `executePipeline` runs one stage: `executeCommand` on the
stage's parsed fields. -/
def stageRunner (execF : ShellState → String → Outcome)
    (reg : String → Option CommandFn) :
    ParsedCommand → String → ShellState → Outcome :=
  fun parsed stdin st =>
    executeCommandF execF reg st parsed.command parsed.args parsed.quotedArgs
      parsed.redirections stdin

/-- The pipeline loop of `exec`: run each parsed pipeline in order,
threading the previous pipeline's stdout as the next one's stdin. -/
def execPipelinesGo (run : ParsedCommand → String → ShellState → Outcome) :
    List Pipeline → ShellState → String → ExecResult → Outcome
  | [], st, _, lastResult => (st, .ok lastResult)
  | p :: rest, st, stdin, _ =>
    match executePipelineF run p stdin st with
    | (st', .error e) => (st', .error e)
    | (st', .ok r) => execPipelinesGo run rest st' r.stdout r

/-- The command-count resource-guard message. -/
def commandCountMsg (n : Nat) : String :=
  "bash: maximum command count (" ++ toString n ++
    ") exceeded (possible infinite loop). Increase with maxCommandCount option.\n"

/-- `BashEnv.exec`, the top-level entry point: reset the command count
at depth zero, guard the count, answer empty input, recognize
compound-statement prefixes on the trimmed line, record function
definitions, and otherwise parse into pipelines and run them. The
`Nat` is the embedding's fuel for the self re-entry. -/
def exec (reg : String → Option CommandFn) : Nat → ShellState → String → Outcome
  | 0, st, _ => (st, .error .fuel)
  | fuel + 1, st, commandLine =>
    let st := if st.callDepth = 0 then { st with commandCount := 0 } else st
    let st := { st with commandCount := st.commandCount + 1 }
    if st.commandCount > st.maxCommandCount then
      (st, .ok ⟨"", commandCountMsg st.maxCommandCount, 1⟩)
    else if strTrim commandLine = "" then (st, .ok ⟨"", "", 0⟩)
    else
      let trimmed := strTrim commandLine
      if strStartsWith trimmed "if " ∨ strStartsWith trimmed "if;" ∨ trimmed = "if" then
        executeIfF (exec reg fuel) st trimmed
      else if strStartsWith trimmed "for " then
        executeForF (exec reg fuel) st trimmed
      else if strStartsWith trimmed "while " then
        executeWhileF (exec reg fuel) st trimmed
      else if strStartsWith trimmed "until " then
        executeUntilF (exec reg fuel) st trimmed
      else
        match parseFunctionDef trimmed with
        | some (name, body) =>
          ({ st with functions := envSet st.functions name body }, .ok ⟨"", "", 0⟩)
        | none =>
          execPipelinesGo (stageRunner (exec reg fuel) reg)
            (shellParse st.env commandLine) st "" ⟨"", "", 0⟩

/-! ## Concrete instances used by the theorems -/

/-- `VirtualFs.mkdirSync(path, {recursive: true})`: create the
directory and its missing ancestors. -/
def mkdirRec (fs : FsMap) (path : String) : FsMap :=
  let n := normalizePath path
  if (fsGet fs n).isSome then fs else fsSet (ensureParentDirs fs n) n (.dir 0o755)

/-- The default-layout filesystem the `BashEnv` constructor builds:
`/home/user`, `/bin`, `/usr/bin`, `/tmp`, and a `/bin` stub file per
registered command (here the two the claims use). -/
def initFs : FsMap :=
  let fs : FsMap := [("/", .dir 0o755)]
  let fs := mkdirRec fs "/home/user"
  let fs := mkdirRec fs "/bin"
  let fs := mkdirRec fs "/usr/bin"
  let fs := mkdirRec fs "/tmp"
  let fs := writeFileSync fs "/bin/echo" "#!/bin/bash\n# Built-in command: echo\n"
  writeFileSync fs "/bin/cat" "#!/bin/bash\n# Built-in command: cat\n"

/-- The state of a freshly constructed default `BashEnv`: cwd
`/home/user`, `HOME`/`PATH` preset, default resource limits
(`maxCallDepth` 100, `maxCommandCount` 10000, `maxLoopIterations`
10000). -/
def initState : ShellState :=
  { cwd := "/home/user"
    env := [("HOME", "/home/user"), ("PATH", "/bin:/usr/bin")]
    functions := []
    localScopes := []
    previousDir := "/home/user"
    callDepth := 0
    commandCount := 0
    maxCallDepth := 100
    maxCommandCount := 10000
    maxLoopIterations := 10000
    fs := initFs }

/-- The session of the local-variable scenario: set `X=outer`, then
define `f` whose body shadows `X` with `local`, echoes it, and fails
with exit 1. -/
def localScenarioState : ShellState :=
  (exec defaultRegistry 2
    (exec defaultRegistry 2 initState "X=outer").1
    "f() \x7b local X=1; echo $X; exit 1; \x7d").1

/-- The session of the recursion scenario: define the self-recursive
`g` with no base case. -/
def recursionState : ShellState :=
  (exec defaultRegistry 2 initState "g() \x7b g; \x7d").1

/-- The session of the exception-in-function scenario: `/d` exists as
a directory and `h`'s body appends to it, which makes `VirtualFs.appendFile`
throw `EISDIR`. -/
def throwScenarioState : ShellState :=
  (exec defaultRegistry 2 { initState with fs := mkdirRec initFs "/d" }
    "h() \x7b echo hi >> /d; \x7d").1

/-- A directory-target state for the redirection-throw counterexample. -/
def dirTargetState : ShellState :=
  { initState with fs := mkdirRec initFs "/d" }

/-- Map the error of an `Outcome` through nothing and its result
through `invertExit` (negation affects only the exit code). -/
def flipOutcome (o : Outcome) : Outcome :=
  (o.1, o.2.map invertExit)

/-- Reduce a stage's negation count to its parity. -/
def negMod (c : PipelineCommand) : PipelineCommand :=
  { c with negationCount := c.negationCount % 2 }

/-- A registry with a single command that always throws — the witness
that the dispatch boundary converts arbitrary thrown exceptions. -/
def throwingRegistry : String → Option CommandFn :=
  fun name =>
    if name = "boom" then
      some (fun _ _ fs => (fs, .error "kaput"))
    else none

/-- A deterministic stage runner used to instantiate the pipeline-loop
lemmas on concrete inputs: it echoes the stdin it was handed, leaves
the state unchanged, and exits 0. -/
def demoRun : ParsedCommand → String → ShellState → Outcome :=
  fun _ stdin st => (st, .ok ⟨"got:" ++ stdin, "", 0⟩)

/-- A pipe-connected demo stage. -/
def demoStage : PipelineCommand := ⟨⟨"x", [], [], []⟩, "", 0⟩

/-- A demo stage preceded by `&&`. -/
def demoStageAnd : PipelineCommand := ⟨⟨"y", [], [], []⟩, "&&", 0⟩

/-- A demo loop accumulator. -/
def demoAcc : PLAcc := ⟨"piped", ⟨"", "", 0⟩, "", "", 0⟩

end JustBash

deriving instance DecidableEq for Except

namespace JustBash

/-! ## Step lemmas about the `executePipeline` loop -/

/-- A stage vetoed by its chain operator is skipped: nothing runs, the
state and both accumulators pass through unchanged (only the captured
segment negation count is updated, as in the source, before the
`continue`). -/
theorem plGo_skip (run : ParsedCommand → String → ShellState → Outcome)
    (ini : String) (c : PipelineCommand) (rest : List PipelineCommand)
    (i : Nat) (st : ShellState) (acc : PLAcc)
    (h : stageRuns c.operator acc.lastResult.exitCode = false) :
    plGo run ini (c :: rest) i st acc =
      plGo run ini rest (i + 1) st
        { acc with curNeg := segmentNeg c.operator i c.negationCount acc.curNeg } := by
  simp only [plGo, h]
  simp

/-- An executed stage whose successor is pipe-connected: the stage
runs on `stageStdin`, its raw stdout becomes the threaded pipe stdin
(and the next stage's input), it contributes nothing to the
accumulated stdout, and its stderr is accumulated. -/
theorem plGo_pipe_step (run : ParsedCommand → String → ShellState → Outcome)
    (ini : String) (c₁ c₂ : PipelineCommand) (rest : List PipelineCommand)
    (i : Nat) (st st' : ShellState) (acc : PLAcc) (r : ExecResult)
    (hop : c₂.operator = "")
    (hg : stageRuns c₁.operator acc.lastResult.exitCode = true)
    (hr : run c₁.parsed (stageStdin c₁.operator i acc.stdin ini) st = (st', .ok r)) :
    plGo run ini (c₁ :: c₂ :: rest) i st acc =
      plGo run ini (c₂ :: rest) (i + 1) st'
        ⟨r.stdout, r, acc.accOut, acc.accErr ++ r.stderr,
          segmentNeg c₁.operator i c₁.negationCount acc.curNeg⟩ := by
  simp only [plGo, hg, hr, List.head?, hop]
  simp

/-- An executed segment-terminal stage (its successor is absent or
preceded by a chain operator): the negation parity of the segment is
applied to its exit code, the adjusted stdout is appended to the
accumulated stdout, its stderr is accumulated, and the adjusted
result becomes the gate for later stages. -/
theorem plGo_terminal_step (run : ParsedCommand → String → ShellState → Outcome)
    (ini : String) (c : PipelineCommand) (rest : List PipelineCommand)
    (i : Nat) (st st' : ShellState) (acc : PLAcc) (r : ExecResult)
    (hterm : ¬((match rest.head? with | some n => n.operator | none => "") = "" ∧ rest ≠ []))
    (hg : stageRuns c.operator acc.lastResult.exitCode = true)
    (hr : run c.parsed (stageStdin c.operator i acc.stdin ini) st = (st', .ok r)) :
    plGo run ini (c :: rest) i st acc =
      plGo run ini rest (i + 1) st'
        ⟨acc.stdin,
          (if segmentNeg c.operator i c.negationCount acc.curNeg % 2 = 1
            then invertExit r else r),
          acc.accOut ++ (if segmentNeg c.operator i c.negationCount acc.curNeg % 2 = 1
            then invertExit r else r).stdout,
          acc.accErr ++ r.stderr,
          segmentNeg c.operator i c.negationCount acc.curNeg⟩ := by
  simp only [plGo, hg, hr]
  simp only [if_neg hterm]
  simp

/-- A stage whose runner throws aborts the whole pipeline loop with
the thrown error and the runner's final state. -/
theorem plGo_error_step (run : ParsedCommand → String → ShellState → Outcome)
    (ini : String) (c : PipelineCommand) (rest : List PipelineCommand)
    (i : Nat) (st st' : ShellState) (acc : PLAcc) (e : JsErr)
    (hg : stageRuns c.operator acc.lastResult.exitCode = true)
    (hr : run c.parsed (stageStdin c.operator i acc.stdin ini) st = (st', .error e)) :
    plGo run ini (c :: rest) i st acc = (st', .error e) := by
  simp only [plGo, hg, hr]
  simp

/-! ## Negation-parity lemmas -/

theorem negMod_operator (c : PipelineCommand) : (negMod c).operator = c.operator := rfl

theorem negMod_parsed (c : PipelineCommand) : (negMod c).parsed = c.parsed := rfl

theorem segmentNeg_mod (op : String) (i : Nat) (n m : Nat) :
    segmentNeg op i (n % 2) (m % 2) = segmentNeg op i n m % 2 := by
  unfold segmentNeg
  split <;> rfl

theorem stageRuns_empty_op (e : Int) : stageRuns "" e = true := by
  simp [stageRuns]

/-- The pipeline loop depends on the negation counts only through
their parities: reducing every stage's count and the captured count
modulo 2 leaves the outcome unchanged. -/
theorem plGo_negMod (run : ParsedCommand → String → ShellState → Outcome) (ini : String) :
    ∀ (cs : List PipelineCommand) (i : Nat) (st : ShellState) (acc : PLAcc),
      plGo run ini (cs.map negMod) i st { acc with curNeg := acc.curNeg % 2 } =
        plGo run ini cs i st acc
  | [], i, st, acc => by simp [plGo]
  | c :: rest, i, st, acc => by
    have hseg : segmentNeg (negMod c).operator i (negMod c).negationCount (acc.curNeg % 2) =
        segmentNeg c.operator i c.negationCount acc.curNeg % 2 := by
      simp only [negMod, segmentNeg]
      split <;> rfl
    have hmod : segmentNeg c.operator i c.negationCount acc.curNeg % 2 % 2 =
        segmentNeg c.operator i c.negationCount acc.curNeg % 2 := by omega
    by_cases hg : stageRuns c.operator acc.lastResult.exitCode = false
    · rw [List.map_cons]
      rw [plGo_skip run ini (negMod c) (rest.map negMod) i st _ (by simpa using hg)]
      rw [plGo_skip run ini c rest i st acc hg]
      rw [show ({ acc with curNeg := acc.curNeg % 2 } : PLAcc) = { acc with curNeg := acc.curNeg % 2 } from rfl] at *
      have h2 := plGo_negMod run ini rest (i + 1) st
        { acc with curNeg := segmentNeg c.operator i c.negationCount acc.curNeg }
      simpa [hseg] using h2
    · have hg' : stageRuns c.operator acc.lastResult.exitCode = true := by
        cases h : stageRuns c.operator acc.lastResult.exitCode with
        | false => exact absurd h hg
        | true => rfl
      rcases hrun : run c.parsed (stageStdin c.operator i acc.stdin ini) st with ⟨st', res⟩
      cases res with
      | error e =>
        rw [List.map_cons]
        rw [plGo_error_step run ini (negMod c) (rest.map negMod) i st st' _ e (by simpa using hg')
          (by exact hrun)]
        rw [plGo_error_step run ini c rest i st st' acc e hg' hrun]
      | ok r =>
        rw [List.map_cons]
        cases rest with
        | nil =>
          simp only [List.map_nil]
          rw [plGo_terminal_step run ini (negMod c) [] i st st' _ r (by simp) (by simpa using hg')
            (by exact hrun)]
          rw [plGo_terminal_step run ini c [] i st st' acc r (by simp) hg' hrun]
          simp only [hseg, hmod]
          have h2 := plGo_negMod run ini [] (i + 1) st'
            ⟨acc.stdin,
              (if segmentNeg c.operator i c.negationCount acc.curNeg % 2 = 1 then invertExit r else r),
              acc.accOut ++ (if segmentNeg c.operator i c.negationCount acc.curNeg % 2 = 1 then invertExit r else r).stdout,
              acc.accErr ++ r.stderr,
              segmentNeg c.operator i c.negationCount acc.curNeg⟩
          simpa using h2
        | cons c₂ rest₂ =>
          by_cases hpipe : c₂.operator = ""
          · rw [List.map_cons]
            rw [plGo_pipe_step run ini (negMod c) (negMod c₂) (rest₂.map negMod) i st st' _ r
              (by simpa using hpipe) (by simpa using hg') (by exact hrun)]
            rw [show (negMod c₂ :: rest₂.map negMod) = ((c₂ :: rest₂).map negMod) from rfl]
            rw [plGo_pipe_step run ini c c₂ rest₂ i st st' acc r hpipe hg' hrun]
            simp only [hseg]
            have h2 := plGo_negMod run ini (c₂ :: rest₂) (i + 1) st'
              ⟨r.stdout, r, acc.accOut, acc.accErr ++ r.stderr,
                segmentNeg c.operator i c.negationCount acc.curNeg⟩
            simpa using h2
          · rw [List.map_cons]
            rw [plGo_terminal_step run ini (negMod c) (negMod c₂ :: rest₂.map negMod) i st st' _ r
              (by simpa using hpipe) (by simpa using hg') (by exact hrun)]
            rw [plGo_terminal_step run ini c (c₂ :: rest₂) i st st' acc r (by simpa using hpipe)
              hg' hrun]
            rw [show (negMod c₂ :: rest₂.map negMod) = ((c₂ :: rest₂).map negMod) from rfl]
            simp only [hseg, hmod]
            have h2 := plGo_negMod run ini (c₂ :: rest₂) (i + 1) st'
              ⟨acc.stdin,
                (if segmentNeg c.operator i c.negationCount acc.curNeg % 2 = 1 then invertExit r else r),
                acc.accOut ++ (if segmentNeg c.operator i c.negationCount acc.curNeg % 2 = 1 then invertExit r else r).stdout,
                acc.accErr ++ r.stderr,
                segmentNeg c.operator i c.negationCount acc.curNeg⟩
            simpa using h2

theorem segmentNeg_pipe (i n k : Nat) (hi : 0 < i) : segmentNeg "" i k n = n := by
  simp [segmentNeg, Nat.pos_iff_ne_zero.mp hi]

theorem segmentNeg_head (op : String) (k n : Nat) : segmentNeg op 0 k n = k := by
  simp [segmentNeg]

theorem invertExit_stdout (r : ExecResult) : (invertExit r).stdout = r.stdout := rfl

theorem invertExit_stderr (r : ExecResult) : (invertExit r).stderr = r.stderr := rfl

/-- Along a pipe-connected chain (every stage's operator empty, away
from the head position), an odd captured negation count produces
exactly the outcome of an even count with the terminal exit code
inverted; state, stdout and stderr are untouched. -/
theorem plGo_flip_chain (run : ParsedCommand → String → ShellState → Outcome) (ini : String) :
    ∀ (rest : List PipelineCommand) (c : PipelineCommand) (i : Nat) (st : ShellState)
      (stdin : String) (lr : ExecResult) (ao ae : String) (n m : Nat),
      c.operator = "" → (∀ x ∈ rest, x.operator = "") → 0 < i →
      n % 2 = 1 → m % 2 = 0 →
      plGo run ini (c :: rest) i st ⟨stdin, lr, ao, ae, n⟩ =
        flipOutcome (plGo run ini (c :: rest) i st ⟨stdin, lr, ao, ae, m⟩)
  | rest, c, i, st, stdin, lr, ao, ae, n, m => by
    intro hc hall hi hn hm
    have hg' : stageRuns c.operator lr.exitCode = true := by
      rw [hc]; exact stageRuns_empty_op _
    have hsegn : segmentNeg c.operator i c.negationCount n = n := by
      rw [hc]; exact segmentNeg_pipe i n c.negationCount hi
    have hsegm : segmentNeg c.operator i c.negationCount m = m := by
      rw [hc]; exact segmentNeg_pipe i m c.negationCount hi
    rcases hrun : run c.parsed (stageStdin c.operator i stdin ini) st with ⟨st', res⟩
    cases res with
    | error e =>
      rw [plGo_error_step run ini c rest i st st' _ e hg' hrun]
      rw [plGo_error_step run ini c rest i st st' _ e hg' hrun]
      rfl
    | ok r =>
      cases rest with
      | nil =>
        rw [plGo_terminal_step run ini c [] i st st' _ r (by simp) hg' hrun]
        rw [plGo_terminal_step run ini c [] i st st' _ r (by simp) hg' hrun]
        simp only [PLAcc.curNeg, hsegn, hsegm, hn, hm]
        simp [plGo, flipOutcome, invertExit, Except.map]
      | cons c₂ rest₂ =>
        have hc₂ : c₂.operator = "" := hall c₂ (by simp)
        rw [plGo_pipe_step run ini c c₂ rest₂ i st st' _ r hc₂ hg' hrun]
        rw [plGo_pipe_step run ini c c₂ rest₂ i st st' _ r hc₂ hg' hrun]
        simp only [PLAcc.curNeg, hsegn, hsegm]
        exact plGo_flip_chain run ini rest₂ c₂ (i + 1) st' r.stdout r ao (ae ++ r.stderr) n m
          hc₂ (fun x hx => hall x (by simp [hx])) (by omega) hn hm

/-- Odd-count negation of a pure pipe chain: the pipeline's outcome
with head negation count `n` (odd) is exactly the outcome with head
count `m` (even) with the terminal exit code inverted once —
`0 → 1`, nonzero `→ 0` — before it gates anything later. -/
theorem executePipeline_flip (run : ParsedCommand → String → ShellState → Outcome)
    (ini : String) (st : ShellState) (c : PipelineCommand) (cs : List PipelineCommand)
    (n m : Nat) (hc : c.operator = "") (hall : ∀ x ∈ cs, x.operator = "")
    (hn : n % 2 = 1) (hm : m % 2 = 0) :
    executePipelineF run ⟨{ c with negationCount := n } :: cs⟩ ini st =
      flipOutcome (executePipelineF run ⟨{ c with negationCount := m } :: cs⟩ ini st) := by
  unfold executePipelineF
  have hg' : stageRuns c.operator (0 : Int) = true := by
    rw [hc]; exact stageRuns_empty_op _
  rcases hrun : run c.parsed (stageStdin c.operator 0 ini ini) st with ⟨st', res⟩
  cases res with
  | error e =>
    rw [plGo_error_step run ini _ cs 0 st st' _ e (by simpa using hg') (by exact hrun)]
    rw [plGo_error_step run ini _ cs 0 st st' _ e (by simpa using hg') (by exact hrun)]
    rfl
  | ok r =>
    cases cs with
    | nil =>
      rw [plGo_terminal_step run ini _ [] 0 st st' _ r (by simp) (by simpa using hg')
        (by exact hrun)]
      rw [plGo_terminal_step run ini _ [] 0 st st' _ r (by simp) (by simpa using hg')
        (by exact hrun)]
      simp only [segmentNeg_head, hn, hm]
      simp [plGo, flipOutcome, invertExit, Except.map]
    | cons c₂ rest₂ =>
      have hc₂ : c₂.operator = "" := hall c₂ (by simp)
      rw [plGo_pipe_step run ini _ c₂ rest₂ 0 st st' _ r hc₂ (by simpa using hg') (by exact hrun)]
      rw [plGo_pipe_step run ini _ c₂ rest₂ 0 st st' _ r hc₂ (by simpa using hg') (by exact hrun)]
      simp only [segmentNeg_head]
      exact plGo_flip_chain run ini rest₂ c₂ 1 st' r.stdout r "" ("" ++ r.stderr) n m
        hc₂ (fun x hx => hall x (by simp [hx])) (by omega) hn hm

/-! ## Lemmas about the environment model -/

theorem envGet_envSet (env : List (String × String)) (k v : String) :
    envGet (envSet env k v) k = some v := by
  induction env with
  | nil => simp [envSet, envGet]
  | cons p rest ih =>
    by_cases h : p.1 = k
    · simp [envSet, envGet, h]
    · simp [envSet, envGet, h, ih]

theorem envGet_eq_none_of_not_mem (env : List (String × String)) (k : String)
    (h : k ∉ env.map Prod.fst) : envGet env k = none := by
  induction env with
  | nil => rfl
  | cons p rest ih =>
    simp only [List.map_cons, List.mem_cons] at h
    push_neg at h
    have h1 : ¬p.1 = k := fun hh => h.1 hh.symm
    simp only [envGet, if_neg h1]
    exact ih h.2

theorem envGet_envDelete_self (env : List (String × String)) (k : String)
    (h : (env.map Prod.fst).Nodup) : envGet (envDelete env k) k = none := by
  induction env with
  | nil => rfl
  | cons p rest ih =>
    simp only [List.map_cons, List.nodup_cons] at h
    by_cases hk : p.1 = k
    · simp only [envDelete, if_pos hk]
      exact envGet_eq_none_of_not_mem rest k (hk ▸ h.1)
    · simp [envDelete, hk, envGet, ih h.2]

/-! ## Lemmas about `indexOf` and slicing on concatenations -/

theorem strIndexOfCharGo_append (l : List Char) (c : Char) (rest : List Char)
    (h : c ∉ l) : ∀ acc, strIndexOfCharGo (l ++ c :: rest) c acc = some (acc + l.length) := by
  induction l with
  | nil => intro acc; simp [strIndexOfCharGo]
  | cons x xs ih =>
    intro acc
    simp only [List.mem_cons] at h
    push_neg at h
    have h1 : ¬x = c := fun hh => h.1 hh.symm
    simp only [List.cons_append, strIndexOfCharGo, if_neg h1, List.append_eq]
    rw [ih h.2 (acc + 1)]
    simp only [List.length_cons]
    congr 1
    omega

theorem strIndexOfChar_mid (name v : String) (c : Char) (h : c ∉ name.data) :
    strIndexOfChar (name ++ String.singleton c ++ v) c = some name.length := by
  unfold strIndexOfChar
  have hdata : (name ++ String.singleton c ++ v).data = name.data ++ c :: v.data := by
    rw [String.data_append, String.data_append]
    rw [show (String.singleton c).data = [c] from rfl, List.append_assoc]
    rfl
  rw [hdata, strIndexOfCharGo_append name.data c v.data h 0]
  rw [Nat.zero_add]
  rfl

theorem sliceTo_mid (name v : String) (c : Char) :
    sliceTo (name ++ String.singleton c ++ v) name.length = name := by
  unfold sliceTo
  have hdata : (name ++ String.singleton c ++ v).data = name.data ++ c :: v.data := by
    rw [String.data_append, String.data_append]
    rw [show (String.singleton c).data = [c] from rfl, List.append_assoc]
    rfl
  rw [hdata]
  have htake : (name.data ++ c :: v.data).take name.data.length = name.data :=
    @List.take_left _ name.data (c :: v.data)
  rw [show name.length = name.data.length from rfl, htake]

theorem sliceFrom_mid (name v : String) (c : Char) :
    sliceFrom (name ++ String.singleton c ++ v) (name.length + 1) = v := by
  unfold sliceFrom
  have hdata : (name ++ String.singleton c ++ v).data = (name.data ++ [c]) ++ v.data := by
    rw [String.data_append, String.data_append]
    rw [show (String.singleton c).data = [c] from rfl]
  rw [hdata]
  have hlen : name.length + 1 = (name.data ++ [c]).length := by
    rw [List.length_append]
    rfl
  rw [hlen]
  rw [List.drop_left]

/-! ## Lemmas about local-scope frames -/

theorem frameGet_append (frame l : List (String × Option String)) (name : String)
    (pre : Option String) (h : frameGet frame name = some pre) :
    frameGet (frame ++ l) name = some pre := by
  induction frame with
  | nil => simp [frameGet] at h
  | cons p rest ih =>
    by_cases hk : p.1 = name
    · simpa [frameGet, hk] using h
    · rw [List.cons_append]
      simp only [frameGet, if_neg hk] at h ⊢
      exact ih h

/-- `localLoop` never overwrites an existing recording: once a name's
pre-call value is in the frame, it stays. -/
theorem frameGet_localLoop (args : List String) :
    ∀ (frame : List (String × Option String)) (env : List (String × String))
      (name : String) (pre : Option String),
      frameGet frame name = some pre →
      frameGet (localLoop args frame env).1 name = some pre := by
  induction args with
  | nil => intro frame env name pre h; simpa [localLoop] using h
  | cons arg rest ih =>
    intro frame env name pre h
    simp only [localLoop]
    apply ih
    split
    · exact h
    · exact frameGet_append _ _ _ _ h

/-! ## The function-invocation guard -/

/-- At the depth limit, the invocation guard fires: `callDepth` is
incremented, found to exceed the maximum, decremented back (the state
is returned unchanged), and the body is never executed — the result
does not depend on the nested entry point or on the body. -/
theorem callFunction_guard (execF : ShellState → String → Outcome) (st : ShellState)
    (name funcBody : String) (args : List String)
    (h : st.maxCallDepth ≤ st.callDepth) :
    callFunction execF st name funcBody args =
      (st, .ok ⟨"", recursionMsg name st.maxCallDepth, 1⟩) := by
  unfold callFunction
  simp only []
  rw [if_pos (show ({ st with callDepth := st.callDepth + 1 } : ShellState).callDepth >
    ({ st with callDepth := st.callDepth + 1 } : ShellState).maxCallDepth by simp; omega)]
  simp

/-! ## The dispatch boundary -/

/-- Any exception thrown by a dispatched command is converted, at the
dispatch boundary, into stdout `""`, stderr `"(name): (message)\n"`
(with the pre-expansion command word), exit code 1 — for every
registry, every command implementation and every thrown message. -/
theorem dispatch_catch (reg : String → Option CommandFn) (st : ShellState)
    (command expandedCommand : String) (args : List String) (stdin : String)
    (cmdFn : CommandFn) (fs' : FsMap) (msg : String)
    (hslash : expandedCommand.data.contains '/' = false)
    (hreg : reg expandedCommand = some cmdFn)
    (hrun : cmdFn args ⟨st.cwd, st.env, stdin⟩ st.fs = (fs', .error msg)) :
    dispatchCommand reg st command expandedCommand args [] stdin =
      ({ st with fs := fs' }, .ok ⟨"", command ++ ": " ++ msg ++ "\n", 1⟩) := by
  unfold dispatchCommand
  rw [hslash]
  simp only [Bool.false_eq_true, if_false, hreg]
  rw [hrun]
  simp [applyRedirsGo]

/-! ## The exit builtin -/

theorem exitBuiltinCode_parsed (s : String) (n : Int)
    (h : jsParseInt s = some n) (hs : s ≠ "") : exitBuiltinCode [s] = n := by
  simp [exitBuiltinCode, hs, h]

theorem exitBuiltinCode_nan (s : String)
    (h : jsParseInt s = none) (hs : s ≠ "") : exitBuiltinCode [s] = 1 := by
  simp [exitBuiltinCode, hs, h]

theorem exitBuiltinCode_noArg : exitBuiltinCode [] = 0 := rfl

theorem strIndexOfCharGo_none (l : List Char) (c : Char) (h : c ∉ l) :
    ∀ acc, strIndexOfCharGo l c acc = none := by
  induction l with
  | nil => intro acc; rfl
  | cons x xs ih =>
    intro acc
    simp only [List.mem_cons] at h
    push_neg at h
    have h1 : ¬x = c := fun hh => h.1 hh.symm
    simp only [strIndexOfCharGo, if_neg h1]
    exact ih h.2 (acc + 1)

theorem strIndexOfChar_none (s : String) (c : Char) (h : c ∉ s.data) :
    strIndexOfChar s c = none :=
  strIndexOfCharGo_none s.data c h 0

theorem sliceTo_length (s : String) : sliceTo s s.length = s := by
  unfold sliceTo
  rw [show s.length = s.data.length from rfl, List.take_length]

/-- Processing `local X=1` in a frame that has not yet recorded `X`:
the pre-call value of `X` is recorded (exactly once, at the tail of
the frame) before the environment is overwritten with `1`. -/
theorem localLoop_records (env : List (String × String))
    (frame : List (String × Option String)) (h : frameGet frame "X" = none) :
    localLoop ["X=1"] frame env = (frame ++ [("X", envGet env "X")], envSet env "X" "1") := by
  simp only [localLoop]
  rw [show strIndexOfChar "X=1" '=' = some 1 from rfl]
  simp only [show (0 < 1) = True by simp, if_true]
  rw [show sliceTo "X=1" 1 = "X" from rfl, show sliceFrom "X=1" 2 = "1" from rfl]
  rw [h]
  simp [localLoop]

/-- `local` outside any function call: an error with exit code 1 and
an unchanged state. -/
theorem handleLocal_outside (st : ShellState) (args : List String)
    (h : st.localScopes = []) :
    handleLocal st args =
      (st, ⟨"", "bash: local: can only be used in a function\n", 1⟩) := by
  unfold handleLocal
  rw [h]

/-- The braced default expansion on an arbitrary environment: the
variable's own value whenever the name is present — even when that
value is the empty string — and the default only when the name is
absent from the environment. -/
theorem expandVariables_default (env : List (String × String)) :
    expandVariables env "$\x7bNAME:-default\x7d" = (envGet env "NAME").getD "default" := by
  have h : expandVariables env "$\x7bNAME:-default\x7d" =
      (envGet env "NAME").getD "default" ++ "" := rfl
  rw [h, String.append_empty]

/-! ## The claims -/

/-- C10: In `$\x7bNAME:-default\x7d` expansion, a variable set to the empty
string counts as set: for every environment where `NAME` is present
with value `""` the expansion yields `""` (its own empty value), and
the default is used only when `NAME` is absent from the environment
mapping altogether. -/
theorem c10_empty_counts_as_set (env : List (String × String)) :
    (envGet env "NAME" = some "" →
      expandVariables env "$\x7bNAME:-default\x7d" = "") ∧
    (∀ v, envGet env "NAME" = some v →
      expandVariables env "$\x7bNAME:-default\x7d" = v) ∧
    (envGet env "NAME" = none →
      expandVariables env "$\x7bNAME:-default\x7d" = "default") := by
  refine ⟨fun h => ?_, fun v h => ?_, fun h => ?_⟩ <;> rw [expandVariables_default, h] <;> rfl

/-- Witness for C10 at two concrete environments: `NAME` set to the
empty string expands to the empty string; `NAME` absent expands to the
default. -/
theorem c10_empty_counts_as_set_witness :
    envGet [("NAME", "")] "NAME" = some "" ∧
    expandVariables [("NAME", "")] "$\x7bNAME:-default\x7d" = "" ∧
    envGet ([] : List (String × String)) "NAME" = none ∧
    expandVariables ([] : List (String × String)) "$\x7bNAME:-default\x7d" = "default" :=
  ⟨rfl, (c10_empty_counts_as_set [("NAME", "")]).1 rfl, rfl,
    (c10_empty_counts_as_set []).2.2 rfl⟩

/-- C3 counterexample: `exec "exit 300"` returns exit code 300, which
lies outside 0..255 — the claimed range invariant fails on the `exit`
builtin. -/
theorem c3_exit_range_counterexample :
    (exec defaultRegistry 10 initState "exit 300").2 = .ok ⟨"", "", 300⟩ ∧
    (255 : Int) < 300 := by
  decide

/-- C3 (amended): `exec`'s exit code is an integer but is not clamped
to 0..255: the `exit` builtin passes its `parseInt`-parsed argument
through unchanged (so `exit 300` yields exit code 300), a non-numeric
argument — one with no leading integer — yields exit 1, and a missing
argument yields 0. -/
theorem c3_exit_code_unclamped :
    (∀ (s : String) (n : Int), jsParseInt s = some n → s ≠ "" → exitBuiltinCode [s] = n) ∧
    (∀ s : String, jsParseInt s = none → s ≠ "" → exitBuiltinCode [s] = 1) ∧
    exitBuiltinCode [] = 0 ∧
    (exec defaultRegistry 10 initState "exit 300").2 = .ok ⟨"", "", 300⟩ ∧
    (exec defaultRegistry 10 initState "exit abc").2 = .ok ⟨"", "", 1⟩ ∧
    (exec defaultRegistry 10 initState "exit").2 = .ok ⟨"", "", 0⟩ := by
  refine ⟨exitBuiltinCode_parsed, exitBuiltinCode_nan, rfl, ?_, ?_, ?_⟩ <;> decide

/-- Witness for C3 (amended) at the concrete argument `300`. -/
theorem c3_exit_code_unclamped_witness :
    jsParseInt "300" = some 300 ∧ exitBuiltinCode ["300"] = 300 :=
  ⟨by decide, c3_exit_code_unclamped.1 "300" 300 (by decide) (by decide)⟩

/-- C4: the code evaluated at the failing input. With `/d` an existing
directory and `h` defined as `h() \x7b echo hi >> /d; \x7d`, `exec "h"`
makes `VirtualFs.appendFile` throw `EISDIR` while applying the
redirection inside the function body; the exception propagates and the
function-invocation bookkeeping is skipped: the final state keeps
`callDepth = 1` (it was 0 before the call) and the pushed scope frame
is never popped — the claimed decrement-on-every-exit-path is
violated because the source has no `try`/`finally`. -/
theorem c4_calldepth_leak_on_throw :
    throwScenarioState.callDepth = 0 ∧
    throwScenarioState.localScopes = [] ∧
    (exec defaultRegistry 10 throwScenarioState "h").2 =
      .error (.thrown "EISDIR: illegal operation on a directory, write '/d'") ∧
    (exec defaultRegistry 10 throwScenarioState "h").1.callDepth = 1 ∧
    (exec defaultRegistry 10 throwScenarioState "h").1.localScopes = [[]] := by
  decide

set_option maxRecDepth 1000000 in
/-- C6: a self-recursive function with no base case (`g() \x7b g; \x7d`)
run under the default limits terminates with exit code 1 and a message
referencing the call-depth limit; the final `callDepth` is 0 (every
increment was matched), and exactly 101 `exec` calls ran — the
limit-exceeding 101st entry incremented `callDepth`, found it above
the maximum, decremented back, and did not execute the body, as the
guard equation (second conjunct) shows for any state at the limit,
independently of the nested entry point and of the body. -/
theorem c6_recursion_limit :
    ((exec defaultRegistry 150 recursionState "g").2 =
        .ok ⟨"", recursionMsg "g" 100, 1⟩ ∧
      (exec defaultRegistry 150 recursionState "g").1.callDepth = 0 ∧
      (exec defaultRegistry 150 recursionState "g").1.commandCount = 101 ∧
      recursionState.maxCallDepth = 100 ∧
      recursionState.maxCommandCount = 10000 ∧
      envGet recursionState.functions "g" = some "g;") ∧
    (∀ (execF : ShellState → String → Outcome) (st : ShellState)
        (name funcBody : String) (args : List String),
      st.maxCallDepth ≤ st.callDepth →
      callFunction execF st name funcBody args =
        (st, .ok ⟨"", recursionMsg name st.maxCallDepth, 1⟩)) := by
  exact ⟨by decide, callFunction_guard⟩

/-- Witness for C6's guard equation at a concrete state sitting at the
depth limit. -/
theorem c6_recursion_limit_witness :
    ({ initState with callDepth := 100 } : ShellState).maxCallDepth ≤
      ({ initState with callDepth := 100 } : ShellState).callDepth ∧
    callFunction (exec defaultRegistry 5) { initState with callDepth := 100 } "g" "g;" [] =
      ({ initState with callDepth := 100 }, .ok ⟨"", recursionMsg "g" 100, 1⟩) :=
  ⟨by decide,
    c6_recursion_limit.2 (exec defaultRegistry 5) { initState with callDepth := 100 }
      "g" "g;" [] (by decide)⟩

/-- C9 counterexample: an exception raised during `exec` escapes to
the caller — `exec "echo hi >> /d"` with `/d` an existing directory
rejects with the `EISDIR` thrown by `VirtualFs.appendFile` while
`applyRedirections` runs outside any `try`, refuting the claim that no
exception raised during `exec` escapes. -/
theorem c9_exception_escapes :
    (exec defaultRegistry 10 dirTargetState "echo hi >> /d").2 =
      .error (.thrown "EISDIR: illegal operation on a directory, write '/d'") := by
  decide

/-- C9 (amended): any exception raised inside a dispatched command is
caught exactly once at the dispatch boundary and converted into
`{stdout: "", stderr: "(name): (message)\n", exitCode: 1}` — for every
registry, command implementation and message — and such exceptions
never escape `exec`; however, an exception raised outside the
dispatched command (here: the filesystem `EISDIR` thrown while
applying an append redirection to a directory) is not caught and does
escape `exec`. -/
theorem c9_dispatch_boundary_amended :
    (∀ (reg : String → Option CommandFn) (st : ShellState)
        (command expandedCommand : String) (args : List String) (stdin : String)
        (cmdFn : CommandFn) (fs' : FsMap) (msg : String),
      expandedCommand.data.contains '/' = false →
      reg expandedCommand = some cmdFn →
      cmdFn args ⟨st.cwd, st.env, stdin⟩ st.fs = (fs', .error msg) →
      dispatchCommand reg st command expandedCommand args [] stdin =
        ({ st with fs := fs' }, .ok ⟨"", command ++ ": " ++ msg ++ "\n", 1⟩)) ∧
    ((exec defaultRegistry 10 dirTargetState "echo hi >> /d").2 =
      .error (.thrown "EISDIR: illegal operation on a directory, write '/d'")) := by
  exact ⟨dispatch_catch, by decide⟩

/-- Witness for C9 (amended): a registry whose only command always
throws; the dispatch converts the thrown message into the documented
result. -/
theorem c9_dispatch_boundary_amended_witness :
    dispatchCommand throwingRegistry initState "boom" "boom" [] [] "" =
      (initState, .ok ⟨"", "boom: kaput\n", 1⟩) := by
  have h := c9_dispatch_boundary_amended.1 throwingRegistry initState "boom" "boom" [] ""
    (fun _ _ fs => (fs, .error "kaput")) initState.fs "kaput" (by decide) rfl rfl
  exact h

/-- C1: Pipeline stdin wiring and stdout accumulation. A stage whose
chain-operator marker is nonempty reads the call's original stdin
(first two conjuncts, the `commandStdin` selection of the source); an
executed stage with a pipe-connected successor hands that successor
its raw stdout as the threaded pipe stdin while contributing nothing
to the accumulated stdout (third conjunct — the successor, having the
empty marker at a positive index, then reads exactly that value by the
second conjunct); only segment-terminal stages append their stdout to
the accumulated stdout (third and fourth conjuncts); and concretely
`exec "echo hi | cat | cat"` returns stdout exactly `"hi\n"` with no
duplication. -/
theorem c1_pipe_stdin_wiring :
    (∀ (op : String) (i : Nat) (pipeStdin ini : String), op ≠ "" →
      stageStdin op i pipeStdin ini = ini) ∧
    (∀ (i : Nat) (pipeStdin ini : String), 0 < i →
      stageStdin "" i pipeStdin ini = pipeStdin) ∧
    (∀ (run : ParsedCommand → String → ShellState → Outcome) (ini : String)
        (c₁ c₂ : PipelineCommand) (rest : List PipelineCommand) (i : Nat)
        (st st' : ShellState) (acc : PLAcc) (r : ExecResult),
      c₂.operator = "" →
      stageRuns c₁.operator acc.lastResult.exitCode = true →
      run c₁.parsed (stageStdin c₁.operator i acc.stdin ini) st = (st', .ok r) →
      plGo run ini (c₁ :: c₂ :: rest) i st acc =
        plGo run ini (c₂ :: rest) (i + 1) st'
          ⟨r.stdout, r, acc.accOut, acc.accErr ++ r.stderr,
            segmentNeg c₁.operator i c₁.negationCount acc.curNeg⟩) ∧
    (∀ (run : ParsedCommand → String → ShellState → Outcome) (ini : String)
        (c : PipelineCommand) (rest : List PipelineCommand) (i : Nat)
        (st st' : ShellState) (acc : PLAcc) (r : ExecResult),
      ¬((match rest.head? with | some n => n.operator | none => "") = "" ∧ rest ≠ []) →
      stageRuns c.operator acc.lastResult.exitCode = true →
      run c.parsed (stageStdin c.operator i acc.stdin ini) st = (st', .ok r) →
      plGo run ini (c :: rest) i st acc =
        plGo run ini rest (i + 1) st'
          ⟨acc.stdin,
            (if segmentNeg c.operator i c.negationCount acc.curNeg % 2 = 1
              then invertExit r else r),
            acc.accOut ++ (if segmentNeg c.operator i c.negationCount acc.curNeg % 2 = 1
              then invertExit r else r).stdout,
            acc.accErr ++ r.stderr,
            segmentNeg c.operator i c.negationCount acc.curNeg⟩) ∧
    ((exec defaultRegistry 10 initState "echo hi | cat | cat").2 = .ok ⟨"hi\n", "", 0⟩) := by
  refine ⟨?_, ?_, plGo_pipe_step, plGo_terminal_step, by decide⟩
  · intro op i pipeStdin ini h
    simp [stageStdin, h]
  · intro i pipeStdin ini h
    simp [stageStdin, Nat.pos_iff_ne_zero.mp h]

/-- Witness for C1: the hypothesis-bearing conjuncts instantiated at a
concrete runner, stages and accumulator. -/
theorem c1_pipe_stdin_wiring_witness :
    stageStdin ";" 1 "piped" "original" = "original" ∧
    stageStdin "" 2 "piped" "original" = "piped" ∧
    plGo demoRun "orig" [demoStage, demoStage] 1 initState demoAcc =
      plGo demoRun "orig" [demoStage] 2 initState
        ⟨"got:piped", ⟨"got:piped", "", 0⟩, "", "" ++ "", 0⟩ ∧
    plGo demoRun "orig" [demoStage] 2 initState demoAcc =
      plGo demoRun "orig" [] 3 initState
        ⟨"piped", ⟨"got:piped", "", 0⟩, "" ++ "got:piped", "" ++ "", 0⟩ := by
  refine ⟨c1_pipe_stdin_wiring.1 ";" 1 "piped" "original" (by decide),
    c1_pipe_stdin_wiring.2.1 2 "piped" "original" (by decide), ?_, ?_⟩
  · exact c1_pipe_stdin_wiring.2.2.1 demoRun "orig" demoStage demoStage [] 1
      initState initState demoAcc ⟨"got:piped", "", 0⟩ rfl (by decide) rfl
  · exact c1_pipe_stdin_wiring.2.2.2.1 demoRun "orig" demoStage [] 2
      initState initState demoAcc ⟨"got:piped", "", 0⟩ (by simp) (by decide) rfl

/-- C2: Chain-operator gating. Whether a stage runs is decided by its
own chain operator against the gating exit code (`&&` iff zero, `||`
iff nonzero, `;` and the empty pipe marker always — first four
conjuncts); a vetoed stage is skipped wholesale, leaving state and
accumulators untouched (fifth conjunct); the gating value after a
segment-terminal stage is that stage's already-negation-adjusted
result (sixth conjunct, the `lastResult` field of the continuation);
and concretely `exec "cat /nonexistent && echo second"` returns
stdout `""` and exit code 1 with the second stage never running. -/
theorem c2_chain_operator_gating :
    (∀ e : Int, stageRuns "&&" e = true ↔ e = 0) ∧
    (∀ e : Int, stageRuns "||" e = true ↔ e ≠ 0) ∧
    (∀ e : Int, stageRuns ";" e = true) ∧
    (∀ e : Int, stageRuns "" e = true) ∧
    (∀ (run : ParsedCommand → String → ShellState → Outcome) (ini : String)
        (c : PipelineCommand) (rest : List PipelineCommand) (i : Nat)
        (st : ShellState) (acc : PLAcc),
      stageRuns c.operator acc.lastResult.exitCode = false →
      plGo run ini (c :: rest) i st acc =
        plGo run ini rest (i + 1) st
          { acc with curNeg := segmentNeg c.operator i c.negationCount acc.curNeg }) ∧
    (∀ (run : ParsedCommand → String → ShellState → Outcome) (ini : String)
        (c : PipelineCommand) (rest : List PipelineCommand) (i : Nat)
        (st st' : ShellState) (acc : PLAcc) (r : ExecResult),
      ¬((match rest.head? with | some n => n.operator | none => "") = "" ∧ rest ≠ []) →
      stageRuns c.operator acc.lastResult.exitCode = true →
      run c.parsed (stageStdin c.operator i acc.stdin ini) st = (st', .ok r) →
      plGo run ini (c :: rest) i st acc =
        plGo run ini rest (i + 1) st'
          ⟨acc.stdin,
            (if segmentNeg c.operator i c.negationCount acc.curNeg % 2 = 1
              then invertExit r else r),
            acc.accOut ++ (if segmentNeg c.operator i c.negationCount acc.curNeg % 2 = 1
              then invertExit r else r).stdout,
            acc.accErr ++ r.stderr,
            segmentNeg c.operator i c.negationCount acc.curNeg⟩) ∧
    ((exec defaultRegistry 10 initState "cat /nonexistent && echo second").2 =
      .ok ⟨"", "cat: /nonexistent: No such file or directory\n", 1⟩) := by
  refine ⟨?_, ?_, ?_, ?_, plGo_skip, plGo_terminal_step, by decide⟩
  · intro e
    by_cases he : e = 0 <;> simp [stageRuns, he]
  · intro e
    by_cases he : e = 0 <;> simp [stageRuns, he]
  · intro e
    simp [stageRuns]
  · intro e
    simp [stageRuns]

/-- Witness for C2: the gating facts and the skip equation at concrete
inputs (a `&&` stage vetoed by a failing gate). -/
theorem c2_chain_operator_gating_witness :
    (stageRuns "&&" 1 = true ↔ (1 : Int) = 0) ∧
    plGo demoRun "orig" [demoStageAnd] 1 initState
      ⟨"piped", ⟨"", "", 1⟩, "", "", 0⟩ =
      plGo demoRun "orig" [] 2 initState
        ⟨"piped", ⟨"", "", 1⟩, "", "", 0⟩ := by
  refine ⟨c2_chain_operator_gating.1 1, ?_⟩
  exact c2_chain_operator_gating.2.2.2.2.1 demoRun "orig" demoStageAnd [] 1 initState
    ⟨"piped", ⟨"", "", 1⟩, "", "", 0⟩ (by decide)

/-- C5: `local` restore semantics. With `env.X = "outer"`, a function
whose body runs `local X=1; echo $X; exit 1` observes the shadowed
value `1` during the call (the echoed stdout) and fails partway with
exit 1, yet `env.X = "outer"` again immediately after the call
returns; `local` outside any function call errors with exit code 1
(both as the builtin equation and end-to-end); and each name's
pre-call value is recorded exactly once per active scope frame — a
recorded value is never overwritten by later `local`s in the frame,
and a fresh name records the pre-call value before the overwrite. -/
theorem c5_local_restores_on_failure :
    (envGet localScenarioState.env "X" = some "outer" ∧
      (exec defaultRegistry 10 localScenarioState "f").2 = .ok ⟨"1\n", "", 1⟩ ∧
      envGet (exec defaultRegistry 10 localScenarioState "f").1.env "X" = some "outer") ∧
    (∀ (st : ShellState) (args : List String), st.localScopes = [] →
      handleLocal st args =
        (st, ⟨"", "bash: local: can only be used in a function\n", 1⟩)) ∧
    ((exec defaultRegistry 10 initState "local X=1").2 =
      .ok ⟨"", "bash: local: can only be used in a function\n", 1⟩) ∧
    (∀ (args : List String) (frame : List (String × Option String))
        (env : List (String × String)) (name : String) (pre : Option String),
      frameGet frame name = some pre →
      frameGet (localLoop args frame env).1 name = some pre) ∧
    (∀ (env : List (String × String)) (frame : List (String × Option String)),
      frameGet frame "X" = none →
      localLoop ["X=1"] frame env =
        (frame ++ [("X", envGet env "X")], envSet env "X" "1")) := by
  exact ⟨⟨by decide, by decide, by decide⟩, handleLocal_outside, by decide,
    frameGet_localLoop, localLoop_records⟩

/-- Witness for C5's hypothesis-bearing conjuncts: `local` in a state
with no scope frames, a frame that already recorded `X`, and a frame
that has not. -/
theorem c5_local_restores_on_failure_witness :
    handleLocal initState ["X=1"] =
      (initState, ⟨"", "bash: local: can only be used in a function\n", 1⟩) ∧
    frameGet (localLoop ["X=1", "X=2"] [("X", some "orig")] [("X", "cur")]).1 "X" =
      some (some "orig") ∧
    localLoop ["X=1"] [] [("X", "outer")] =
      ([("X", some "outer")], [("X", "1")]) := by
  refine ⟨c5_local_restores_on_failure.2.1 initState ["X=1"] (by decide), ?_, ?_⟩
  · exact c5_local_restores_on_failure.2.2.2.1 ["X=1", "X=2"] [("X", some "orig")]
      [("X", "cur")] "X" (some "orig") (by decide)
  · exact c5_local_restores_on_failure.2.2.2.2 [("X", "outer")] [] (by decide)

/-- C7: Negation parity. The pipeline loop depends on negation counts
only through their parities (first conjunct — so an even number of
`!` is a no-op and an odd number acts as one), and for a pipe-connected
run an odd head count yields exactly the even-count outcome with the
terminal exit code inverted once (`0 → 1`, nonzero `→ 0`) before that
code gates anything later (second conjunct); concretely
`exec "! cat /missing"` exits 0 and `exec "! ! cat /missing"` exits
1. -/
theorem c7_negation_parity :
    (∀ (run : ParsedCommand → String → ShellState → Outcome) (ini : String)
        (p : Pipeline) (st : ShellState),
      executePipelineF run ⟨p.commands.map negMod⟩ ini st =
        executePipelineF run p ini st) ∧
    (∀ (run : ParsedCommand → String → ShellState → Outcome) (ini : String)
        (st : ShellState) (c : PipelineCommand) (cs : List PipelineCommand) (n m : Nat),
      c.operator = "" → (∀ x ∈ cs, x.operator = "") → n % 2 = 1 → m % 2 = 0 →
      executePipelineF run ⟨{ c with negationCount := n } :: cs⟩ ini st =
        flipOutcome (executePipelineF run ⟨{ c with negationCount := m } :: cs⟩ ini st)) ∧
    ((exec defaultRegistry 10 initState "! cat /missing").2 =
      .ok ⟨"", "cat: /missing: No such file or directory\n", 0⟩) ∧
    ((exec defaultRegistry 10 initState "! ! cat /missing").2 =
      .ok ⟨"", "cat: /missing: No such file or directory\n", 1⟩) := by
  refine ⟨?_, executePipeline_flip, by decide, by decide⟩
  intro run ini p st
  have h := plGo_negMod run ini p.commands 0 st ⟨ini, ⟨"", "", 0⟩, "", "", 0⟩
  simpa [executePipelineF] using h

/-- Witness for C7's odd-inversion conjunct at a concrete one-stage
pipe run with counts 3 (odd) and 2 (even). -/
theorem c7_negation_parity_witness :
    executePipelineF demoRun ⟨[{ demoStage with negationCount := 3 }]⟩ "x" initState =
      flipOutcome (executePipelineF demoRun
        ⟨[{ demoStage with negationCount := 2 }]⟩ "x" initState) := by
  exact c7_negation_parity.2.1 demoRun "x" initState demoStage [] 3 2 rfl
    (by intro x hx; cases hx) (by decide) (by decide)

/-- C8: The `export` builtin (registry implementation, part_003):
`export NAME=value` sets the variable; `export NAME` with a bare name
creates the variable as empty when it is absent and leaves it alone
when present; `export -n NAME` removes the variable from the
environment; and `export` with no arguments lists all variables (the
`declare -x` listing, shown both as the general equation and on a
concrete environment, sorted, with `BASH_ALIAS_`-prefixed entries
filtered out). -/
theorem c8_export_modes :
    (∀ (env : List (String × String)) (name v : String),
      '=' ∉ name.data → name ≠ "-n" → name ≠ "-p" → name ≠ "--" →
      handleExport env [name ++ "=" ++ v] = (envSet env name v, ⟨"", "", 0⟩)) ∧
    (∀ (env : List (String × String)) (name : String),
      '=' ∉ name.data → name ≠ "-n" → name ≠ "-p" → name ≠ "--" →
      (envGet env name = none →
        handleExport env [name] = (envSet env name "", ⟨"", "", 0⟩)) ∧
      (∀ u, envGet env name = some u →
        handleExport env [name] = (env, ⟨"", "", 0⟩))) ∧
    (∀ (env : List (String × String)) (name : String),
      '=' ∉ name.data → name ≠ "-n" → name ≠ "-p" → name ≠ "--" →
      (env.map Prod.fst).Nodup →
      handleExport env ["-n", name] = (envDelete env name, ⟨"", "", 0⟩) ∧
      envGet ((handleExport env ["-n", name]).1) name = none) ∧
    (∀ env, handleExport env [] = (env, ⟨exportListing env, "", 0⟩)) ∧
    (handleExport [("B", "2"), ("A", "1"), ("BASH_ALIAS_x", "y")] [] =
      ([("B", "2"), ("A", "1"), ("BASH_ALIAS_x", "y")],
        ⟨"declare -x A=" ++ String.singleton squoteChar ++ "1" ++
            String.singleton squoteChar ++ "\n" ++
          "declare -x B=" ++ String.singleton squoteChar ++ "2" ++
            String.singleton squoteChar ++ "\n", "", 0⟩)) := by
  have hsing : ("=" : String) = String.singleton '=' := rfl
  refine ⟨?_, ?_, ?_, ?_, by decide⟩
  · intro env name v hq hn hp hd
    rw [hsing]
    have hdata : (name ++ String.singleton '=' ++ v).data = name.data ++ '=' :: v.data := by
      rw [String.data_append, String.data_append]
      rw [show (String.singleton '=').data = ['='] from rfl, List.append_assoc]
      rfl
    have hmem : '=' ∈ (name ++ String.singleton '=' ++ v).data := by
      rw [hdata]; simp
    have hne_n : name ++ String.singleton '=' ++ v ≠ "-n" := by
      intro hcontra; rw [hcontra] at hmem; exact absurd hmem (by decide)
    have hne_p : name ++ String.singleton '=' ++ v ≠ "-p" := by
      intro hcontra; rw [hcontra] at hmem; exact absurd hmem (by decide)
    have hne_d : name ++ String.singleton '=' ++ v ≠ "--" := by
      intro hcontra; rw [hcontra] at hmem; exact absurd hmem (by decide)
    unfold handleExport
    rw [show exportScanArgs [name ++ String.singleton '=' ++ v] false =
      (false, [name ++ String.singleton '=' ++ v]) from by
        simp [exportScanArgs, hne_n, hne_p, hne_d]]
    simp only [List.cons_ne_self, false_and, if_false, Bool.false_eq_true,
      ne_eq, not_false_eq_true, and_true, reduceCtorEq, if_neg]
    unfold exportAssign
    rw [show (name ++ String.singleton '=' ++ v).data.contains '=' = true from by
      simpa using hmem]
    rw [strIndexOfChar_mid name v '=' hq]
    simp only [if_true]
    rw [sliceTo_mid name v '=', sliceFrom_mid name v '=']
    rfl
  · intro env name hq hn hp hd
    have hscan : exportScanArgs [name] false = (false, [name]) := by
      simp [exportScanArgs, hn, hp, hd]
    have hcont : name.data.contains '=' = false := by simpa using hq
    constructor
    · intro habs
      simp only [handleExport, hscan]
      simp only [List.cons_ne_self, false_and, if_false, Bool.false_eq_true,
        ne_eq, not_false_eq_true, and_true, reduceCtorEq, if_neg]
      simp only [exportAssign, hcont]
      simp [envHas, habs]
    · intro u hsome
      simp only [handleExport, hscan]
      simp only [List.cons_ne_self, false_and, if_false, Bool.false_eq_true,
        ne_eq, not_false_eq_true, and_true, reduceCtorEq, if_neg]
      simp only [exportAssign, hcont]
      simp [envHas, hsome]
  · intro env name hq hn hp hd hnodup
    have hscan : exportScanArgs ["-n", name] false = (true, [name]) := by
      simp [exportScanArgs, hn, hp, hd]
    have hidx : strIndexOfChar name '=' = none := strIndexOfChar_none name '=' hq
    have heq : handleExport env ["-n", name] = (envDelete env name, ⟨"", "", 0⟩) := by
      simp only [handleExport, hscan]
      simp only [not_true, and_false, if_false, List.foldl, hidx, Option.getD,
        sliceTo_length]
      simp [sliceTo_length]
    exact ⟨heq, by rw [heq]; exact envGet_envDelete_self env name hnodup⟩
  · intro env
    rfl

/-- Witness for C8 at concrete inputs: setting, creating empty,
leaving an existing variable, and un-exporting. -/
theorem c8_export_modes_witness :
    handleExport [("B", "2")] ["A" ++ "=" ++ "5"] =
      ([("B", "2"), ("A", "5")], ⟨"", "", 0⟩) ∧
    handleExport [("B", "2")] ["A"] = ([("B", "2"), ("A", "")], ⟨"", "", 0⟩) ∧
    handleExport [("B", "2")] ["B"] = ([("B", "2")], ⟨"", "", 0⟩) ∧
    handleExport [("B", "2")] ["-n", "B"] = ([], ⟨"", "", 0⟩) := by
  refine ⟨?_, ?_, ?_, ?_⟩
  · exact c8_export_modes.1 [("B", "2")] "A" "5" (by decide) (by decide) (by decide) (by decide)
  · exact (c8_export_modes.2.1 [("B", "2")] "A" (by decide) (by decide) (by decide)
      (by decide)).1 (by decide)
  · exact (c8_export_modes.2.1 [("B", "2")] "B" (by decide) (by decide) (by decide)
      (by decide)).2 "2" (by decide)
  · exact (c8_export_modes.2.2.1 [("B", "2")] "B" (by decide) (by decide) (by decide)
      (by decide) (by decide)).1

end JustBash
